import Mathlib

/-!
# LikeChain ABCI transfer handler — verification development

A shallow embedding of the deterministic transaction engine of the
likecoin/likechain repository, centred on the Transfer handler
(`abci/handlers/transfer/transfer.go`).  Byte strings are `List Nat`,
Go `*big.Int` values are `Int`, the Go `uint64` nonce is a `Nat`
reduced modulo `2 ^ 64` on increment.  The account store
(`abci/account`), the wire types (`abci/types`) and the version
garbage collector live outside the provided sources; they are modelled
from the specification where a definition says so.
-/

namespace LikeChain

/-- Raw byte strings (each entry is one byte). -/
abbrev Bytes := List Nat

/-- A 20-byte Ethereum-style address (`types.Address`). -/
structure Address where
  bytes : Bytes
deriving DecidableEq, Repr

/-- A 20-byte internal account identifier (`types.LikeChainID`). -/
structure LikeChainID where
  bytes : Bytes
deriving DecidableEq, Repr

/-- Modelled from the spec: an Identifier is a tagged value, either a
20-byte address or a 20-byte internal ID (`types.Identifier`, a
protobuf oneof). -/
inductive Identifier where
  | addr (a : Address)
  | id (i : LikeChainID)
deriving DecidableEq, Repr

/-- Modelled from the spec: `Identifier.GetAddr` of the Go oneof —
the address payload when the identifier is an address, else nil. -/
def Identifier.GetAddr : Identifier → Option Address
  | .addr a => some a
  | .id _ => none

/-- Modelled from the spec: `Identifier.GetLikeChainID` of the Go
oneof — the ID payload when the identifier is an internal ID, else
nil. -/
def Identifier.GetLikeChainID : Identifier → Option LikeChainID
  | .addr _ => none
  | .id i => some i

/-- `LikeChainID.ToIdentifier`: wrap an internal ID back into an
Identifier. -/
def LikeChainID.ToIdentifier (i : LikeChainID) : Identifier :=
  Identifier.id i

/-- Modelled from the spec: an identifier is well-formed when its
payload is exactly 20 bytes (`types.Identifier.IsValidFormat`). -/
def Identifier.IsValidFormat : Identifier → Bool
  | .addr a => a.bytes.length == 20
  | .id i => i.bytes.length == 20

/-- Modelled from the spec: a signature is 65 bytes `r ‖ s ‖ v`;
`recovered` is the result of `utils.RecoverSignature` on this
transaction's signing-message hash (none when recovery fails, e.g.
`v` outside 27/28 or an invalid curve point). -/
structure Signature where
  bytes : Bytes
  recovered : Option Address
deriving DecidableEq, Repr

/-- Modelled from the spec: a signature is well-formed when it is
exactly 65 bytes (`types.Signature.IsValidFormat`). -/
def Signature.IsValidFormat (s : Signature) : Bool :=
  s.bytes.length == 65

/-- One Transfer output (`types.TransferTransaction_TransferTarget`):
receiver identifier, non-negative big-int value, free-form remark. -/
structure TransferOutput where
  to_ : Identifier
  value : Int
  remark : Bytes
deriving DecidableEq, Repr

/-- Modelled from the spec: a transfer output is well-formed when its
receiver identifier is well-formed and its value is a non-negative
big integer (`TransferTarget.IsValidFormat`; the remark size is
checked separately by the handler). -/
def TransferOutput.IsValidFormat (o : TransferOutput) : Bool :=
  o.to_.IsValidFormat && decide (0 ≤ o.value)

/-- A Transfer transaction (`types.TransferTransaction`): sender
identifier, ordered output list, nonce, fee, signature. -/
structure TransferTransaction where
  from_ : Identifier
  toList : List TransferOutput
  nonce : Nat
  fee : Int
  sig : Signature
deriving DecidableEq, Repr

/-- Per-hash transaction status (`types.TxStatus`). -/
inductive TxStatus where
  | NotSet
  | Success
  | Fail
deriving DecidableEq, Repr

/-- Response kinds returned by the transfer handler
(`response.Transfer*`; the concrete numeric codes differ between the
CheckTx and DeliverTx phases but the kind is shared). -/
inductive R where
  | Success
  | TransferInvalidFormat
  | TransferSenderNotRegistered
  | TransferInvalidSignature
  | TransferInvalidNonce
  | TransferDuplicated
  | TransferInvalidReceiver
  | TransferNotEnoughBalance
  | RegisterDuplicated
deriving DecidableEq, Repr

/-- Modelled from the spec: each response carries a numeric code;
0 means success and every failure kind is non-zero. -/
def R.code : R → Nat
  | .Success => 0
  | .TransferInvalidFormat => 1
  | .TransferSenderNotRegistered => 2
  | .TransferInvalidSignature => 3
  | .TransferInvalidNonce => 4
  | .TransferDuplicated => 5
  | .TransferInvalidReceiver => 6
  | .TransferNotEnoughBalance => 7
  | .RegisterDuplicated => 8

/-- Modelled from the spec: the account record held in the state tree
under `acc/<id>/...` — balance (non-negative arbitrary-precision
integer) and next-expected-nonce (unsigned 64-bit, starts at 1). -/
structure Account where
  balance : Int
  nextNonce : Nat
deriving DecidableEq, Repr

/-- Modelled from the spec: the application state visible to the
transfer handler — account records keyed by internal ID, the
address-to-ID reverse index `addr/<addr>/id`, unclaimed balances of
unbound addresses `addr/<addr>/unclaimed`, and the per-hash
transaction status index `tx/<txHash>/status` (absent = NotSet). -/
structure State where
  accounts : LikeChainID → Option Account
  addrToId : Address → Option LikeChainID
  unclaimed : Address → Option Int
  txStatus : Bytes → TxStatus

/-- Modelled from the spec: `account.IdentifierToLikeChainID` resolves
an identifier to the 20-byte internal ID — an address through the
reverse index (nil when unbound), an internal ID passed through when
its account exists (nil for an ID with no account). -/
def IdentifierToLikeChainID (s : State) : Identifier → Option LikeChainID
  | .addr a => s.addrToId a
  | .id i => if (s.accounts i).isSome then some i else none

/-- Modelled from the spec: `account.FetchNextNonce` reads the
account's next-expected-nonce; nonces start at 1. -/
def FetchNextNonce (s : State) (i : LikeChainID) : Nat :=
  match s.accounts i with
  | some acc => acc.nextNonce
  | none => 1

/-- Modelled from the spec: `account.FetchBalance` reads the balance
of an identifier — an ID reads its account balance, an address reads
through the reverse index, falling back to the address's unclaimed
balance; absent values read as 0. -/
def FetchBalance (s : State) : Identifier → Int
  | .id i =>
    match s.accounts i with
    | some acc => acc.balance
    | none => 0
  | .addr a =>
    match s.addrToId a with
    | some i =>
      match s.accounts i with
      | some acc => acc.balance
      | none => 0
    | none =>
      match s.unclaimed a with
      | some b => b
      | none => 0

/-- Modelled from the spec: `account.IncrementNextNonce` advances the
account's next-expected-nonce by 1 (unsigned 64-bit arithmetic); a
missing account record is left untouched. -/
def IncrementNextNonce (s : State) (i : LikeChainID) : State :=
  { s with
    accounts := fun j =>
      if j = i then
        match s.accounts i with
        | some acc => some { acc with nextNonce := (acc.nextNonce + 1) % 2 ^ 64 }
        | none => none
      else s.accounts j }

/-- Modelled from the spec: `account.AddBalance` credits an
identifier — an ID credits its account balance (creating the record
when absent), an address credits through the reverse index, and
crediting an unbound address accumulates into the address's
unclaimed slot. -/
def AddBalance (s : State) (iden : Identifier) (amount : Int) : State :=
  match iden with
  | .id i =>
    { s with
      accounts := fun j =>
        if j = i then
          match s.accounts i with
          | some acc => some { acc with balance := acc.balance + amount }
          | none => some { balance := amount, nextNonce := 1 }
        else s.accounts j }
  | .addr a =>
    match s.addrToId a with
    | some i =>
      { s with
        accounts := fun j =>
          if j = i then
            match s.accounts i with
            | some acc => some { acc with balance := acc.balance + amount }
            | none => some { balance := amount, nextNonce := 1 }
          else s.accounts j }
    | none =>
      { s with
        unclaimed := fun b =>
          if b = a then
            match s.unclaimed a with
            | some u => some (u + amount)
            | none => some amount
          else s.unclaimed b }

/-- Modelled from the spec: `account.MinusBalance` debits an
identifier; the debit mirrors the credit path. -/
def MinusBalance (s : State) (iden : Identifier) (amount : Int) : State :=
  AddBalance s iden (-amount)

/-- Modelled from the spec: `account.IsLikeChainIDHasAddress` — the
address is bound to the given internal ID (membership marker
`acc/<id>/addr/<addr>`, kept consistent with the reverse index). -/
def IsLikeChainIDHasAddress (s : State) (i : LikeChainID) (a : Address) : Bool :=
  s.addrToId a == some i

/-- Maximum remark size in bytes (`transfer.go` line 18). -/
def maxRemarkSize : Nat := 4096

/-- `validateTransferTransactionFormat` (`transfer.go` lines
215–244): the sender identifier parses, the output list is non-empty
with each output well-formed and its remark at most 4096 bytes, and
the signature is well-formed.  The Go function receives the state but
never reads it. -/
def validateTransferTransactionFormat (tx : TransferTransaction) : Bool :=
  if !tx.from_.IsValidFormat then
    false
  else if tx.toList.length > 0 then
    (tx.toList.all fun target =>
      target.IsValidFormat && decide (target.remark.length ≤ maxRemarkSize)) &&
    tx.sig.IsValidFormat
  else
    false

/-- `validateTransferSignature` (`transfer.go` lines 182–213): the
recovered address equals the sender address, or — when the sender is
an internal ID — is bound to that ID. -/
def validateTransferSignature (s : State) (tx : TransferTransaction) : Bool :=
  match tx.sig.recovered with
  | none => false
  | some sigAddr =>
    match tx.from_.GetAddr with
    | some senderAddr => senderAddr == sigAddr
    | none =>
      match tx.from_.GetLikeChainID with
      | some i => IsLikeChainIDHasAddress s i sigAddr
      | none => false

/-- The validation loop of `checkTransfer` (`transfer.go` lines
57–78): per output, a receiver given as an internal ID must resolve
(else `InvalidReceiver`); the running total `fee + Σ values` must
never exceed the sender balance (else `NotEnoughBalance`). -/
def checkLoop (s : State) (senderBalance : Int) :
    Int → List TransferOutput → R
  | _, [] => R.Success
  | total, target :: rest =>
    if target.to_.GetLikeChainID.isSome && (IdentifierToLikeChainID s target.to_).isNone then
      R.TransferInvalidReceiver
    else
      let total1 := total + target.value
      if senderBalance < total1 then
        R.TransferNotEnoughBalance
      else
        checkLoop s senderBalance total1 rest

/-- `checkTransfer` (`transfer.go` lines 26–81): the validation
pipeline in its fixed order — format, sender registered, signature,
nonce (greater → `InvalidNonce`, less → `Duplicated`), then the
receiver/balance loop. -/
def checkTransfer (s : State) (tx : TransferTransaction) : R :=
  if !validateTransferTransactionFormat tx then
    R.TransferInvalidFormat
  else
    match IdentifierToLikeChainID s tx.from_ with
    | none => R.TransferSenderNotRegistered
    | some senderID =>
      if !validateTransferSignature s tx then
        R.TransferInvalidSignature
      else
        let nextNonce := FetchNextNonce s senderID
        if nextNonce < tx.nonce then
          R.TransferInvalidNonce
        else if tx.nonce < nextNonce then
          R.TransferDuplicated
        else
          let senderBalance := FetchBalance s senderID.ToIdentifier
          checkLoop s senderBalance tx.fee tx.toList

/-- The delivery loop of `deliver` (`transfer.go` lines 146–172).
Besides the checks of `checkLoop` it records the pending credit of
each output: the receiver resolved to its internal ID when possible,
otherwise the raw (unbound) address.  The Go code accumulates the
credits in a map keyed by `*types.Identifier`; every iteration
produces a fresh pointer (`target.To` of distinct outputs, or a fresh
`ToIdentifier()` allocation), so no key ever collides and the map is
exactly this ordered list of entries. -/
def deliverLoop (s : State) (senderBalance : Int) :
    Int → List (Identifier × Int) → List TransferOutput →
    Except R (List (Identifier × Int) × Int)
  | total, transfers, [] => Except.ok (transfers, total)
  | total, transfers, target :: rest =>
    if target.to_.GetLikeChainID.isSome && (IdentifierToLikeChainID s target.to_).isNone then
      Except.error R.TransferInvalidReceiver
    else
      let amount := target.value
      let total1 := total + amount
      if senderBalance < total1 then
        Except.error R.TransferNotEnoughBalance
      else
        let targetIden :=
          match IdentifierToLikeChainID s target.to_ with
          | some targetID => targetID.ToIdentifier
          | none => target.to_
        deliverLoop s senderBalance total1 (transfers ++ [(targetIden, amount)]) rest

/-- Apply the collected credits (`transfer.go` lines 174–176).  The
Go `range` over the map visits entries in unspecified order; the
credits are additions to independent slots, so the list order is one
of the admissible orders and they all yield the same state. -/
def creditAll (transfers : List (Identifier × Int)) (s : State) : State :=
  transfers.foldl (fun st p => AddBalance st p.1 p.2) s

/-- `deliver` (`transfer.go` lines 105–179): the validation pipeline
of `checkTransfer`, except that after a correct nonce the sender's
next-nonce is incremented *before* the receiver/balance loop, so a
failure in the loop still consumes the nonce; on success the credits
are applied and the sender is debited once for `fee + Σ values`. -/
def deliver (s : State) (tx : TransferTransaction) : R × State :=
  if !validateTransferTransactionFormat tx then
    (R.TransferInvalidFormat, s)
  else
    match IdentifierToLikeChainID s tx.from_ with
    | none => (R.TransferSenderNotRegistered, s)
    | some senderID =>
      if !validateTransferSignature s tx then
        (R.TransferInvalidSignature, s)
      else
        let nextNonce := FetchNextNonce s senderID
        if nextNonce < tx.nonce then
          (R.TransferInvalidNonce, s)
        else if tx.nonce < nextNonce then
          (R.TransferDuplicated, s)
        else
          let s1 := IncrementNextNonce s senderID
          let senderIden := senderID.ToIdentifier
          let senderBalance := FetchBalance s1 senderIden
          match deliverLoop s1 senderBalance tx.fee [] tx.toList with
          | Except.error r => (r, s1)
          | Except.ok (transfers, total) =>
            let s2 := creditAll transfers s1
            let s3 := MinusBalance s2 senderIden total
            (R.Success, s3)

/-- `GetStatus` (`transfer.go` lines 251–254): read the status stored
under `tx/<txHash>/status`; an absent record reads as NotSet. -/
def GetStatus (s : State) (txHash : Bytes) : TxStatus :=
  s.txStatus txHash

/-- `SetStatus` (`transfer.go` lines 257–263): store the status under
`tx/<txHash>/status`. -/
def SetStatus (s : State) (txHash : Bytes) (status : TxStatus) : State :=
  { s with txStatus := fun h => if h = txHash then status else s.txStatus h }

/-- `deliverTransfer` (`transfer.go` lines 83–103): run `deliver`,
derive the terminal status from the response code, and record it only
when no status has been stored for this hash yet. -/
def deliverTransfer (s : State) (tx : TransferTransaction) (txHash : Bytes) :
    R × State :=
  let p := deliver s tx
  let status := if p.1.code != 0 then TxStatus.Fail else TxStatus.Success
  let prevStatus := GetStatus p.2 txHash
  let s2 := if prevStatus = TxStatus.NotSet then SetStatus p.2 txHash status else p.2
  (p.1, s2)

/-- Modelled from the spec: the Register deliver handler, reduced to
its state effect (the handler code is outside the provided sources).
The sender must be an address with no binding (`RegisterDuplicated`
otherwise); a fresh internal ID — the first 20 bytes of Keccak-256 of
the raw transaction bytes, passed here as `newID` — is bound to the
address with balance equal to any unclaimed balance held at that
address (0 otherwise) and next-nonce 1; the unclaimed slot is
cleared. -/
def register (s : State) (a : Address) (newID : LikeChainID) : R × State :=
  if (s.addrToId a).isSome then
    (R.RegisterDuplicated, s)
  else
    let initBalance :=
      match s.unclaimed a with
      | some u => u
      | none => 0
    (R.Success,
      { s with
        accounts := fun j => if j = newID then some ⟨initBalance, 1⟩ else s.accounts j,
        addrToId := fun b => if b = a then some newID else s.addrToId b,
        unclaimed := fun b => if b = a then none else s.unclaimed b })

/-- The record returned by the `account_info` and `address_info`
queries: `{id, balance, nextNonce}`; `id` is empty for the synthetic
record of an unbound address holding unclaimed balance. -/
structure AccountInfo where
  id : Bytes
  balance : Int
  nextNonce : Nat
deriving DecidableEq, Repr

/-- Modelled from the spec: the `account_info` query — resolve the
identifier to an internal ID with an existing account and return its
record; `none` models the `InvalidIdentifier` error (also for an
unbound address). -/
def accountInfoQuery (s : State) (iden : Identifier) : Option AccountInfo :=
  match IdentifierToLikeChainID s iden with
  | none => none
  | some i =>
    match s.accounts i with
    | some acc => some ⟨i.bytes, acc.balance, acc.nextNonce⟩
    | none => none

/-- Modelled from the spec: the `address_info` query — the account
bound to the address, or the synthetic record
`{id: empty, balance: unclaimed, nextNonce: 0}` when the address has
unclaimed balance but no binding. -/
def addressInfoQuery (s : State) (a : Address) : Option AccountInfo :=
  match s.addrToId a with
  | some i =>
    match s.accounts i with
    | some acc => some ⟨i.bytes, acc.balance, acc.nextNonce⟩
    | none => none
  | none =>
    match s.unclaimed a with
    | some u => some ⟨[], u, 0⟩
    | none => none

/-- Modelled from the spec: the versioned store as seen through
`VersionExists` — the current version counter of the two trees (they
move together, advanced exactly once per block commit) and the set of
retained versions of each tree. -/
structure GCState where
  version : Nat
  stateVersionExists : Nat → Bool
  withdrawVersionExists : Nat → Bool

/-- Modelled from the spec: the state of a freshly created pair of
trees — no saved version yet; `SaveVersion` will produce version 1. -/
def gcGenesis : GCState :=
  { version := 0
    stateVersionExists := fun _ => false
    withdrawVersionExists := fun _ => false }

/-- Modelled from the spec: one Commit — `SaveVersion` on both trees
produces the next version, then the retention sweep deletes version
`v − keepBlocks` from both trees iff it exists (`keepBlocks` 0 means
retain all). -/
def gcCommit (keepBlocks : Nat) (g : GCState) : GCState :=
  let v := g.version + 1
  let sweep : (Nat → Bool) → Nat → Bool := fun f n =>
    if keepBlocks > 0 ∧ n = v - keepBlocks then false else f n
  { version := v
    stateVersionExists := fun n =>
      if n = v then true else sweep g.stateVersionExists n
    withdrawVersionExists := fun n =>
      if n = v then true else sweep g.withdrawVersionExists n }

/-- Iterated commits. -/
def gcCommitN (keepBlocks : Nat) : Nat → GCState → GCState
  | 0, g => g
  | n + 1, g => gcCommitN keepBlocks n (gcCommit keepBlocks g)

/-! ## Derived predicates used to state the claims -/

/-- The per-output receiver condition of the validation loop: an
output passes unless its receiver is an internal ID with no
account. -/
def receiverOk (s : State) (o : TransferOutput) : Bool :=
  !(o.to_.GetLikeChainID.isSome && (IdentifierToLikeChainID s o.to_).isNone)

/-- Sum of the values of a list of outputs. -/
def valuesTotal (l : List TransferOutput) : Int :=
  (l.map TransferOutput.value).sum

/-- The running-sum condition of the validation loop: starting from
`total`, adding each output's value in order never exceeds the sender
balance. -/
def runningOk (senderBalance : Int) : Int → List TransferOutput → Bool
  | _, [] => true
  | total, o :: rest =>
    !(senderBalance < total + o.value) &&
    runningOk senderBalance (total + o.value) rest

/-- The credited identifier of one output: its internal ID when it
resolves, the raw identifier otherwise. -/
def resolveIden (s : State) (iden : Identifier) : Identifier :=
  match IdentifierToLikeChainID s iden with
  | some targetID => targetID.ToIdentifier
  | none => iden

/-- The credit entries collected by a fully successful delivery
loop. -/
def resolvedPairs (s : State) (l : List TransferOutput) : List (Identifier × Int) :=
  l.map fun o => (resolveIden s o.to_, o.value)

/-- Sum of the values of the entries credited to a given internal
ID. -/
def pairsTo (rid : LikeChainID) (ps : List (Identifier × Int)) : Int :=
  ((ps.filter fun p => p.1 == Identifier.id rid).map Prod.snd).sum

/-- Sum of the values of the outputs whose receiver resolves to a
given internal ID. -/
def valueToResolved (s : State) (rid : LikeChainID) (l : List TransferOutput) : Int :=
  ((l.filter fun o => IdentifierToLikeChainID s o.to_ == some rid).map
    TransferOutput.value).sum

/-! ## Validation-loop lemmas -/

theorem checkLoop_success_iff (s : State) (b : Int) :
    ∀ (total : Int) (l : List TransferOutput),
      checkLoop s b total l = R.Success ↔
        l.all (receiverOk s) = true ∧ runningOk b total l = true := by
  intro total l
  induction l generalizing total with
  | nil => simp [checkLoop, runningOk]
  | cons o rest ih =>
    simp only [checkLoop, runningOk, List.all_cons, receiverOk]
    by_cases hrec : (o.to_.GetLikeChainID.isSome && (IdentifierToLikeChainID s o.to_).isNone) = true
    · simp [hrec]
    · by_cases hbal : b < total + o.value
      · simp [hrec, hbal]
      · simp only [hrec, if_false, Bool.not_eq_true] at *
        simp [hrec, hbal, ih]

theorem checkLoop_cases (s : State) (b : Int) :
    ∀ (total : Int) (l : List TransferOutput),
      checkLoop s b total l = R.Success ∨
      checkLoop s b total l = R.TransferInvalidReceiver ∨
      checkLoop s b total l = R.TransferNotEnoughBalance := by
  intro total l
  induction l generalizing total with
  | nil => simp [checkLoop]
  | cons o rest ih =>
    simp only [checkLoop]
    by_cases hrec : (o.to_.GetLikeChainID.isSome && (IdentifierToLikeChainID s o.to_).isNone) = true
    · simp [hrec]
    · by_cases hbal : b < total + o.value
      · simp [hrec, hbal]
      · simp only [hrec, hbal, if_false]
        exact ih (total + o.value)

theorem checkLoop_receiver_imp (s : State) (b : Int) :
    ∀ (total : Int) (l : List TransferOutput),
      checkLoop s b total l = R.TransferInvalidReceiver →
      ∃ o ∈ l, o.to_.GetLikeChainID.isSome = true ∧
        IdentifierToLikeChainID s o.to_ = none := by
  intro total l
  induction l generalizing total with
  | nil => simp [checkLoop]
  | cons o rest ih =>
    simp only [checkLoop]
    by_cases hrec : (o.to_.GetLikeChainID.isSome && (IdentifierToLikeChainID s o.to_).isNone) = true
    · intro _
      refine ⟨o, by simp, ?_, ?_⟩
      · exact (Bool.and_eq_true_iff.mp hrec).1
      · exact Option.isNone_iff_eq_none.mp (Bool.and_eq_true_iff.mp hrec).2
    · by_cases hbal : b < total + o.value
      · simp [hrec, hbal]
      · simp only [hrec, hbal, if_false]
        intro h
        obtain ⟨o2, ho2, h1, h2⟩ := ih (total + o.value) h
        exact ⟨o2, by simp [ho2], h1, h2⟩

theorem checkLoop_balance_imp (s : State) (b : Int) :
    ∀ (total : Int) (l : List TransferOutput),
      checkLoop s b total l = R.TransferNotEnoughBalance →
      runningOk b total l = false := by
  intro total l
  induction l generalizing total with
  | nil => simp [checkLoop]
  | cons o rest ih =>
    simp only [checkLoop, runningOk]
    by_cases hrec : (o.to_.GetLikeChainID.isSome && (IdentifierToLikeChainID s o.to_).isNone) = true
    · simp [hrec]
    · by_cases hbal : b < total + o.value
      · simp [hrec, hbal]
      · simp only [hrec, hbal, if_false]
        intro h
        simp [hbal, ih (total + o.value) h]

theorem checkLoop_notEnough_iff (s : State) (b : Int)
    (total : Int) (l : List TransferOutput)
    (hrec : l.all (receiverOk s) = true) :
    checkLoop s b total l = R.TransferNotEnoughBalance ↔
      runningOk b total l = false := by
  constructor
  · exact checkLoop_balance_imp s b total l
  · intro hrun
    rcases checkLoop_cases s b total l with h | h | h
    · rw [checkLoop_success_iff] at h
      rw [h.2] at hrun
      exact absurd hrun (by simp)
    · obtain ⟨o, ho, h1, h2⟩ := checkLoop_receiver_imp s b total l h
      have := List.all_eq_true.mp hrec o ho
      simp [receiverOk, h1, h2] at this
    · exact h

theorem runningOk_iff (b : Int) :
    ∀ (total : Int) (l : List TransferOutput),
      runningOk b total l = true ↔
        ∀ k, 1 ≤ k → k ≤ l.length → total + valuesTotal (l.take k) ≤ b := by
  intro total l
  induction l generalizing total with
  | nil =>
    simp only [runningOk, List.length_nil, true_iff]
    intro k hk1 hk2
    omega
  | cons o rest ih =>
    simp only [runningOk, Bool.and_eq_true, Bool.not_eq_true', decide_eq_false_iff_not,
      not_lt, List.length_cons]
    constructor
    · rintro ⟨h1, h2⟩ k hk1 hk2
      match k with
      | 1 =>
        simpa [valuesTotal] using h1
      | k + 2 =>
        have h3 := (ih (total + o.value)).mp h2 (k + 1) (by omega) (by omega)
        simp only [valuesTotal, List.take_succ_cons, List.map_cons, List.sum_cons] at h3 ⊢
        omega
    · intro h
      refine ⟨?_, (ih (total + o.value)).mpr ?_⟩
      · have h1 := h 1 le_rfl (by omega)
        simpa [valuesTotal] using h1
      · intro k hk1 hk2
        have h2 := h (k + 1) (by omega) (by omega)
        simp only [valuesTotal, List.take_succ_cons, List.map_cons, List.sum_cons] at h2 ⊢
        omega

theorem deliverLoop_eq (s : State) (b : Int) :
    ∀ (l : List TransferOutput) (total : Int) (tr : List (Identifier × Int)),
      deliverLoop s b total tr l =
        if checkLoop s b total l = R.Success then
          Except.ok (tr ++ resolvedPairs s l, total + valuesTotal l)
        else
          Except.error (checkLoop s b total l) := by
  intro l
  induction l with
  | nil =>
    intro total tr
    simp [deliverLoop, checkLoop, resolvedPairs, valuesTotal]
  | cons o rest ih =>
    intro total tr
    simp only [deliverLoop, checkLoop]
    by_cases hrec : (o.to_.GetLikeChainID.isSome && (IdentifierToLikeChainID s o.to_).isNone) = true
    · simp [hrec]
    · by_cases hbal : b < total + o.value
      · simp [hrec, hbal]
      · simp only [hrec, hbal, if_false]
        rw [ih]
        rcases checkLoop_cases s b (total + o.value) rest with h | h | h <;>
          simp [h, resolvedPairs, valuesTotal, resolveIden, add_assoc]

/-! ## State-invariance lemmas for the account operations -/

theorem IncrementNextNonce_addrToId (s : State) (i : LikeChainID) :
    (IncrementNextNonce s i).addrToId = s.addrToId := rfl

theorem IncrementNextNonce_unclaimed (s : State) (i : LikeChainID) :
    (IncrementNextNonce s i).unclaimed = s.unclaimed := rfl

theorem IncrementNextNonce_txStatus (s : State) (i : LikeChainID) :
    (IncrementNextNonce s i).txStatus = s.txStatus := rfl

theorem IncrementNextNonce_accounts_isSome (s : State) (i j : LikeChainID) :
    ((IncrementNextNonce s i).accounts j).isSome = ((s.accounts j).isSome) := by
  simp only [IncrementNextNonce]
  by_cases h : j = i
  · subst h
    cases hacc : s.accounts j <;> simp [hacc]
  · simp [h]

theorem IncrementNextNonce_accounts_other (s : State) (i j : LikeChainID)
    (h : j ≠ i) : (IncrementNextNonce s i).accounts j = s.accounts j := by
  simp [IncrementNextNonce, h]

theorem IncrementNextNonce_accounts_self (s : State) (i : LikeChainID)
    (acc : Account) (h : s.accounts i = some acc) :
    (IncrementNextNonce s i).accounts i =
      some { acc with nextNonce := (acc.nextNonce + 1) % 2 ^ 64 } := by
  simp [IncrementNextNonce, h]

theorem IncrementNextNonce_resolve (s : State) (i : LikeChainID)
    (iden : Identifier) :
    IdentifierToLikeChainID (IncrementNextNonce s i) iden =
      IdentifierToLikeChainID s iden := by
  cases iden with
  | addr a => rfl
  | id j =>
    simp [IdentifierToLikeChainID, IncrementNextNonce_accounts_isSome]

theorem IncrementNextNonce_balance (s : State) (i : LikeChainID)
    (iden : Identifier) :
    FetchBalance (IncrementNextNonce s i) iden = FetchBalance s iden := by
  cases iden with
  | addr a =>
    simp only [FetchBalance, IncrementNextNonce_addrToId, IncrementNextNonce_unclaimed]
    cases hb : s.addrToId a with
    | none => rfl
    | some j =>
      simp only [IncrementNextNonce]
      by_cases h : j = i
      · subst h
        cases hacc : s.accounts j <;> simp [hacc]
      · simp [h]
  | id j =>
    simp only [FetchBalance, IncrementNextNonce]
    by_cases h : j = i
    · subst h
      cases hacc : s.accounts j <;> simp [hacc]
    · simp [h]

theorem IncrementNextNonce_receiverOk (s : State) (i : LikeChainID)
    (o : TransferOutput) :
    receiverOk (IncrementNextNonce s i) o = receiverOk s o := by
  simp [receiverOk, IncrementNextNonce_resolve]

theorem IncrementNextNonce_checkLoop (s : State) (i : LikeChainID) (b : Int) :
    ∀ (total : Int) (l : List TransferOutput),
      checkLoop (IncrementNextNonce s i) b total l = checkLoop s b total l := by
  intro total l
  induction l generalizing total with
  | nil => rfl
  | cons o rest ih =>
    simp only [checkLoop, IncrementNextNonce_resolve, ih]

theorem IncrementNextNonce_resolvedPairs (s : State) (i : LikeChainID)
    (l : List TransferOutput) :
    resolvedPairs (IncrementNextNonce s i) l = resolvedPairs s l := by
  simp [resolvedPairs, resolveIden, IncrementNextNonce_resolve]

/-! ## Unfolding lemmas for the two handler functions -/

theorem checkTransfer_eq_of_valid (s : State) (tx : TransferTransaction)
    (sid : LikeChainID)
    (hf : validateTransferTransactionFormat tx = true)
    (hs : IdentifierToLikeChainID s tx.from_ = some sid)
    (hsig : validateTransferSignature s tx = true)
    (hn : tx.nonce = FetchNextNonce s sid) :
    checkTransfer s tx =
      checkLoop s (FetchBalance s sid.ToIdentifier) tx.fee tx.toList := by
  simp [checkTransfer, hf, hs, hsig, ← hn]

theorem deliver_eq_of_valid (s : State) (tx : TransferTransaction)
    (sid : LikeChainID)
    (hf : validateTransferTransactionFormat tx = true)
    (hs : IdentifierToLikeChainID s tx.from_ = some sid)
    (hsig : validateTransferSignature s tx = true)
    (hn : tx.nonce = FetchNextNonce s sid) :
    deliver s tx =
      match deliverLoop (IncrementNextNonce s sid)
          (FetchBalance s sid.ToIdentifier) tx.fee [] tx.toList with
      | Except.error r => (r, IncrementNextNonce s sid)
      | Except.ok (transfers, total) =>
        (R.Success,
          MinusBalance (creditAll transfers (IncrementNextNonce s sid))
            sid.ToIdentifier total) := by
  simp [deliver, hf, hs, hsig, ← hn, IncrementNextNonce_balance]

theorem deliver_fail_of_valid (s : State) (tx : TransferTransaction)
    (sid : LikeChainID) (r : R)
    (hf : validateTransferTransactionFormat tx = true)
    (hs : IdentifierToLikeChainID s tx.from_ = some sid)
    (hsig : validateTransferSignature s tx = true)
    (hn : tx.nonce = FetchNextNonce s sid)
    (hloop : checkLoop s (FetchBalance s sid.ToIdentifier) tx.fee tx.toList = r)
    (hr : r ≠ R.Success) :
    deliver s tx = (r, IncrementNextNonce s sid) := by
  rw [deliver_eq_of_valid s tx sid hf hs hsig hn, deliverLoop_eq,
    IncrementNextNonce_checkLoop, hloop]
  simp [hr]

theorem deliver_success_of_valid (s : State) (tx : TransferTransaction)
    (sid : LikeChainID)
    (hf : validateTransferTransactionFormat tx = true)
    (hs : IdentifierToLikeChainID s tx.from_ = some sid)
    (hsig : validateTransferSignature s tx = true)
    (hn : tx.nonce = FetchNextNonce s sid)
    (hloop : checkLoop s (FetchBalance s sid.ToIdentifier) tx.fee tx.toList =
      R.Success) :
    deliver s tx =
      (R.Success,
        MinusBalance
          (creditAll (resolvedPairs s tx.toList) (IncrementNextNonce s sid))
          sid.ToIdentifier (tx.fee + valuesTotal tx.toList)) := by
  rw [deliver_eq_of_valid s tx sid hf hs hsig hn, deliverLoop_eq,
    IncrementNextNonce_checkLoop, hloop]
  simp [IncrementNextNonce_resolvedPairs]

theorem deliver_fst_eq_checkTransfer (s : State) (tx : TransferTransaction) :
    (deliver s tx).1 = checkTransfer s tx := by
  cases hf : validateTransferTransactionFormat tx with
  | false => simp [deliver, checkTransfer, hf]
  | true =>
    cases hres : IdentifierToLikeChainID s tx.from_ with
    | none => simp [deliver, checkTransfer, hf, hres]
    | some sid =>
      cases hsig : validateTransferSignature s tx with
      | false => simp [deliver, checkTransfer, hf, hres, hsig]
      | true =>
        by_cases h1 : FetchNextNonce s sid < tx.nonce
        · simp [deliver, checkTransfer, hf, hres, hsig, h1]
        · by_cases h2 : tx.nonce < FetchNextNonce s sid
          · simp [deliver, checkTransfer, hf, hres, hsig, h1, h2]
          · simp only [deliver, checkTransfer, hf, hres, hsig, h1, h2,
              Bool.not_true, Bool.false_eq_true, if_false, if_neg h1, if_neg h2]
            rw [deliverLoop_eq, IncrementNextNonce_checkLoop,
              IncrementNextNonce_balance]
            by_cases hc : checkLoop s (FetchBalance s sid.ToIdentifier)
                tx.fee tx.toList = R.Success
            · simp [hc]
            · simp [hc]

/-! ## Credit-fold lemmas -/

theorem AddBalance_addrToId (s : State) (iden : Identifier) (v : Int) :
    (AddBalance s iden v).addrToId = s.addrToId := by
  cases iden with
  | id i => rfl
  | addr a =>
    simp only [AddBalance]
    cases s.addrToId a <;> rfl

theorem AddBalance_txStatus (s : State) (iden : Identifier) (v : Int) :
    (AddBalance s iden v).txStatus = s.txStatus := by
  cases iden with
  | id i => rfl
  | addr a =>
    simp only [AddBalance]
    cases s.addrToId a <;> rfl

theorem AddBalance_accounts_nonce (s : State) (iden : Identifier) (v : Int)
    (j : LikeChainID) (acc : Account) (h : s.accounts j = some acc) :
    ∃ b2, (AddBalance s iden v).accounts j = some ⟨b2, acc.nextNonce⟩ := by
  cases iden with
  | id i =>
    by_cases hj : j = i
    · subst hj
      exact ⟨acc.balance + v, by simp [AddBalance, h]⟩
    · exact ⟨acc.balance, by simp [AddBalance, hj, h]⟩
  | addr a =>
    simp only [AddBalance]
    cases hb : s.addrToId a with
    | none => exact ⟨acc.balance, by simp [h]⟩
    | some i =>
      by_cases hj : j = i
      · subst hj
        exact ⟨acc.balance + v, by simp [h]⟩
      · exact ⟨acc.balance, by simp [hj, h]⟩

theorem creditAll_addrToId (s : State) (ps : List (Identifier × Int)) :
    (creditAll ps s).addrToId = s.addrToId := by
  induction ps generalizing s with
  | nil => rfl
  | cons p rest ih =>
    simp only [creditAll, List.foldl_cons]
    rw [show (List.foldl (fun st q => AddBalance st q.1 q.2) (AddBalance s p.1 p.2) rest) =
      creditAll rest (AddBalance s p.1 p.2) from rfl]
    rw [ih, AddBalance_addrToId]

theorem creditAll_txStatus (s : State) (ps : List (Identifier × Int)) :
    (creditAll ps s).txStatus = s.txStatus := by
  induction ps generalizing s with
  | nil => rfl
  | cons p rest ih =>
    simp only [creditAll, List.foldl_cons]
    rw [show (List.foldl (fun st q => AddBalance st q.1 q.2) (AddBalance s p.1 p.2) rest) =
      creditAll rest (AddBalance s p.1 p.2) from rfl]
    rw [ih, AddBalance_txStatus]

theorem creditAll_accounts_nonce (ps : List (Identifier × Int)) (s : State)
    (j : LikeChainID) (acc : Account) (h : s.accounts j = some acc) :
    ∃ b2, (creditAll ps s).accounts j = some ⟨b2, acc.nextNonce⟩ := by
  induction ps generalizing s acc with
  | nil => exact ⟨acc.balance, by simpa [creditAll] using h⟩
  | cons p rest ih =>
    obtain ⟨b2, h2⟩ := AddBalance_accounts_nonce s p.1 p.2 j acc h
    obtain ⟨b3, h3⟩ := ih (AddBalance s p.1 p.2) ⟨b2, acc.nextNonce⟩ h2
    exact ⟨b3, h3⟩

theorem AddBalance_accounts_at (s : State) (iden : Identifier) (v : Int)
    (rid : LikeChainID) (acc : Account) (h : s.accounts rid = some acc)
    (hiden : ∀ a, iden = Identifier.addr a → s.addrToId a = none) :
    (AddBalance s iden v).accounts rid =
      some ⟨acc.balance + (if iden = Identifier.id rid then v else 0),
        acc.nextNonce⟩ := by
  cases iden with
  | id i =>
    by_cases hj : rid = i
    · subst hj
      simp [AddBalance, h]
    · have : ¬ (Identifier.id i = Identifier.id rid) := by
        simp [Identifier.id.injEq]
        exact fun he => hj he.symm
      simp [AddBalance, hj, h, this]
  | addr a =>
    have hb := hiden a rfl
    simp [AddBalance, hb, h]

theorem creditAll_accounts_at (ps : List (Identifier × Int)) (s : State)
    (rid : LikeChainID) (acc : Account) (h : s.accounts rid = some acc)
    (hps : ∀ p ∈ ps, ∀ a, p.1 = Identifier.addr a → s.addrToId a = none) :
    (creditAll ps s).accounts rid =
      some ⟨acc.balance + pairsTo rid ps, acc.nextNonce⟩ := by
  induction ps generalizing s acc with
  | nil => simpa [creditAll, pairsTo] using h
  | cons p rest ih =>
    have h1 := AddBalance_accounts_at s p.1 p.2 rid acc h
      (fun a ha => hps p (by simp) a ha)
    have hrest : ∀ q ∈ rest, ∀ a, q.1 = Identifier.addr a →
        (AddBalance s p.1 p.2).addrToId a = none := by
      intro q hq a ha
      rw [AddBalance_addrToId]
      exact hps q (by simp [hq]) a ha
    have h2 := ih (AddBalance s p.1 p.2)
      ⟨acc.balance + (if p.1 = Identifier.id rid then p.2 else 0), acc.nextNonce⟩
      h1 hrest
    rw [show creditAll (p :: rest) s = creditAll rest (AddBalance s p.1 p.2) from rfl]
    rw [h2]
    by_cases hp : p.1 = Identifier.id rid
    · simp [pairsTo, hp, add_assoc]
    · have : (p.1 == Identifier.id rid) = false := by
        simp [hp]
      simp [pairsTo, hp, this]

theorem AddBalance_unclaimed_at (s : State) (iden : Identifier) (v : Int)
    (x : Address) (hx : s.addrToId x = none) :
    (AddBalance s iden v).unclaimed x =
      if iden = Identifier.addr x then
        some ((s.unclaimed x).getD 0 + v)
      else
        s.unclaimed x := by
  cases iden with
  | id i => simp [AddBalance]
  | addr a =>
    by_cases ha : a = x
    · subst ha
      cases hu : s.unclaimed a <;> simp [AddBalance, hx, hu]
    · have : ¬ (Identifier.addr a = Identifier.addr x) := by
        simp [Identifier.addr.injEq, ha]
      simp only [AddBalance, this, if_false]
      cases hb : s.addrToId a with
      | none => simp [show ¬ x = a from fun h => ha h.symm]
      | some i => simp

theorem creditAll_unclaimed_at (ps : List (Identifier × Int)) (s : State)
    (x : Address) (hx : s.addrToId x = none) :
    (creditAll ps s).unclaimed x =
      ((ps.filter fun p => p.1 == Identifier.addr x).map Prod.snd).foldl
        (fun u v => some (u.getD 0 + v)) (s.unclaimed x) := by
  induction ps generalizing s with
  | nil => rfl
  | cons p rest ih =>
    rw [show creditAll (p :: rest) s = creditAll rest (AddBalance s p.1 p.2) from rfl]
    have hx2 : (AddBalance s p.1 p.2).addrToId x = none := by
      rw [AddBalance_addrToId]; exact hx
    rw [ih (AddBalance s p.1 p.2) hx2,
      AddBalance_unclaimed_at s p.1 p.2 x hx]
    by_cases hp : p.1 = Identifier.addr x
    · simp [hp]
    · have : (p.1 == Identifier.addr x) = false := by simp [hp]
      simp [hp, this]

theorem bumpFold_some (vs : List Int) (c : Int) :
    vs.foldl (fun u v => some (u.getD 0 + v)) (some c) = some (c + vs.sum) := by
  induction vs generalizing c with
  | nil => simp
  | cons v rest ih => simp [ih, add_assoc]

theorem bumpFold_none (vs : List Int) (h : vs ≠ []) :
    vs.foldl (fun u v => some (u.getD 0 + v)) none = some vs.sum := by
  cases vs with
  | nil => exact absurd rfl h
  | cons v rest => simp [bumpFold_some]

theorem MinusBalance_accounts_self (s : State) (sid : LikeChainID)
    (acc : Account) (t : Int) (h : s.accounts sid = some acc) :
    (MinusBalance s sid.ToIdentifier t).accounts sid =
      some ⟨acc.balance - t, acc.nextNonce⟩ := by
  simp [MinusBalance, AddBalance, LikeChainID.ToIdentifier, h, sub_eq_add_neg]

theorem MinusBalance_accounts_other (s : State) (sid j : LikeChainID)
    (t : Int) (h : j ≠ sid) :
    (MinusBalance s sid.ToIdentifier t).accounts j = s.accounts j := by
  simp [MinusBalance, AddBalance, LikeChainID.ToIdentifier, h]

theorem MinusBalance_unclaimed (s : State) (sid : LikeChainID) (t : Int) :
    (MinusBalance s sid.ToIdentifier t).unclaimed = s.unclaimed := rfl

theorem MinusBalance_addrToId (s : State) (sid : LikeChainID) (t : Int) :
    (MinusBalance s sid.ToIdentifier t).addrToId = s.addrToId := rfl

theorem MinusBalance_txStatus (s : State) (sid : LikeChainID) (t : Int) :
    (MinusBalance s sid.ToIdentifier t).txStatus = s.txStatus := rfl

/-! ## Correspondence between credited entries and outputs -/

theorem resolveIden_eq_addr (s : State) (iden : Identifier) (a : Address)
    (h : resolveIden s iden = Identifier.addr a) :
    iden = Identifier.addr a ∧ s.addrToId a = none := by
  cases iden with
  | addr b =>
    simp only [resolveIden, IdentifierToLikeChainID] at h
    cases hb : s.addrToId b with
    | some j => simp [hb, LikeChainID.ToIdentifier] at h
    | none =>
      rw [hb] at h
      simp only [Identifier.addr.injEq] at h
      subst h
      exact ⟨rfl, hb⟩
  | id i =>
    simp only [resolveIden, IdentifierToLikeChainID] at h
    by_cases hi : (s.accounts i).isSome = true <;>
      simp [hi, LikeChainID.ToIdentifier] at h

theorem resolveIden_eq_id_iff (s : State) (iden : Identifier)
    (rid : LikeChainID)
    (hrec : (iden.GetLikeChainID.isSome &&
      (IdentifierToLikeChainID s iden).isNone) = false) :
    resolveIden s iden = Identifier.id rid ↔
      IdentifierToLikeChainID s iden = some rid := by
  cases iden with
  | addr a =>
    simp only [resolveIden, IdentifierToLikeChainID]
    cases hb : s.addrToId a <;> simp [LikeChainID.ToIdentifier]
  | id i =>
    have hi : (s.accounts i).isSome = true := by
      by_contra hcon
      have hf : (s.accounts i).isSome = false := by
        simpa using hcon
      simp [Identifier.GetLikeChainID, IdentifierToLikeChainID, hf] at hrec
    simp [resolveIden, IdentifierToLikeChainID, hi, LikeChainID.ToIdentifier]

theorem pairsTo_resolvedPairs (s : State) (rid : LikeChainID) :
    ∀ (l : List TransferOutput), l.all (receiverOk s) = true →
      pairsTo rid (resolvedPairs s l) = valueToResolved s rid l := by
  intro l hrc
  induction l with
  | nil => rfl
  | cons o rest ih =>
    simp only [List.all_cons, Bool.and_eq_true] at hrc
    have hrec2 : (o.to_.GetLikeChainID.isSome &&
        (IdentifierToLikeChainID s o.to_).isNone) = false := by
      have h := hrc.1
      simp only [receiverOk, Bool.not_eq_true'] at h
      exact h
    have hiff := resolveIden_eq_id_iff s o.to_ rid hrec2
    have ih2 := ih hrc.2
    by_cases hcase : IdentifierToLikeChainID s o.to_ = some rid
    · have h1 : resolveIden s o.to_ = Identifier.id rid := hiff.mpr hcase
      simp only [pairsTo, resolvedPairs, valueToResolved, List.map_cons,
        List.filter_cons] at ih2 ⊢
      simp [h1, hcase, ih2]
    · have h1 : ¬ resolveIden s o.to_ = Identifier.id rid :=
        fun h => hcase (hiff.mp h)
      simp only [pairsTo, resolvedPairs, valueToResolved, List.map_cons,
        List.filter_cons] at ih2 ⊢
      simp [h1, hcase, ih2]

theorem unclaimedValues_resolvedPairs (s : State) (x : Address)
    (hx : s.addrToId x = none) :
    ∀ (l : List TransferOutput),
      ((resolvedPairs s l).filter fun p => p.1 == Identifier.addr x).map Prod.snd =
        (l.filter fun o => o.to_ == Identifier.addr x).map TransferOutput.value := by
  intro l
  induction l with
  | nil => rfl
  | cons o rest ih =>
    simp only [resolvedPairs, List.map_cons, List.filter_cons] at ih ⊢
    by_cases hcase : o.to_ = Identifier.addr x
    · have h1 : resolveIden s (Identifier.addr x) = Identifier.addr x := by
        simp [resolveIden, IdentifierToLikeChainID, hx]
      simp [h1, hcase, ih]
    · have h1 : ¬ resolveIden s o.to_ = Identifier.addr x := by
        intro hr
        exact absurd (resolveIden_eq_addr s o.to_ x hr).1 hcase
      simp [h1, hcase, ih]

theorem resolvedPairs_addr_unbound (s : State) (l : List TransferOutput) :
    ∀ p ∈ resolvedPairs s l, ∀ a, p.1 = Identifier.addr a →
      s.addrToId a = none := by
  intro p hp a ha
  simp only [resolvedPairs, List.mem_map] at hp
  obtain ⟨o, _, ho⟩ := hp
  rw [← ho] at ha
  exact (resolveIden_eq_addr s o.to_ a ha).2

/-! ## Whole-handler invariants -/

theorem deliver_format_fail (s : State) (tx : TransferTransaction)
    (h : validateTransferTransactionFormat tx = false) :
    deliver s tx = (R.TransferInvalidFormat, s) := by
  simp [deliver, h]

theorem deliver_snd_addrToId (s : State) (tx : TransferTransaction) :
    (deliver s tx).2.addrToId = s.addrToId := by
  simp only [deliver]
  repeat' split
  all_goals first
    | rfl
    | (rw [MinusBalance_addrToId, creditAll_addrToId]; rfl)

theorem deliver_snd_txStatus (s : State) (tx : TransferTransaction) :
    (deliver s tx).2.txStatus = s.txStatus := by
  simp only [deliver]
  repeat' split
  all_goals first
    | rfl
    | (rw [MinusBalance_txStatus, creditAll_txStatus]; rfl)

/-! ## Concrete test fixtures (mirroring the balances of the test
suite: registered accounts A = 100, B = 200, C = 200, all at
next-nonce 1) -/

/-- Twenty equal bytes, used to build concrete 20-byte values. -/
def tb (n : Nat) : Bytes := List.replicate 20 n

def idA : LikeChainID := ⟨tb 1⟩

def idB : LikeChainID := ⟨tb 2⟩

def idC : LikeChainID := ⟨tb 3⟩

def addrA : Address := ⟨tb 11⟩

def addrX : Address := ⟨tb 12⟩

/-- A well-formed signature whose recovery yields A's address. -/
def sigA : Signature := ⟨List.replicate 65 0, some addrA⟩

def testState : State :=
  { accounts := fun i =>
      if i = idA then some ⟨100, 1⟩
      else if i = idB then some ⟨200, 1⟩
      else if i = idC then some ⟨200, 1⟩
      else none
    addrToId := fun a => if a = addrA then some idA else none
    unclaimed := fun _ => none
    txStatus := fun _ => TxStatus.NotSet }

/-! ## Claims -/

/-- C9: for every Transfer transaction and every state, `checkTransfer`
and the validation part of `deliver` evaluated on the same state return
the same response kind — in particular one returns Success iff the
other does, and on failure the error kinds agree; the two phases can
only disagree across different states. -/
theorem claim9_check_deliver_same_kind (s : State) (tx : TransferTransaction) :
    checkTransfer s tx = (deliver s tx).1 :=
  (deliver_fst_eq_checkTransfer s tx).symm

/-- The characterization of the validation pipeline used by C3: the
response is the error of the first failing step in the fixed order
format, sender-registered, signature, nonce, receiver/balance loop. -/
def pipelineCharacter (s : State) (tx : TransferTransaction) (r : R) : Prop :=
  (r = R.TransferInvalidFormat ↔ validateTransferTransactionFormat tx = false) ∧
  (r = R.TransferSenderNotRegistered ↔
    validateTransferTransactionFormat tx = true ∧
    IdentifierToLikeChainID s tx.from_ = none) ∧
  (r = R.TransferInvalidSignature ↔
    validateTransferTransactionFormat tx = true ∧
    (IdentifierToLikeChainID s tx.from_).isSome = true ∧
    validateTransferSignature s tx = false) ∧
  (r = R.TransferInvalidNonce ↔
    validateTransferTransactionFormat tx = true ∧
    (∃ sid, IdentifierToLikeChainID s tx.from_ = some sid ∧
      validateTransferSignature s tx = true ∧
      FetchNextNonce s sid < tx.nonce)) ∧
  (r = R.TransferDuplicated ↔
    validateTransferTransactionFormat tx = true ∧
    (∃ sid, IdentifierToLikeChainID s tx.from_ = some sid ∧
      validateTransferSignature s tx = true ∧
      tx.nonce < FetchNextNonce s sid)) ∧
  (r = R.TransferInvalidReceiver →
    ∃ o ∈ tx.toList, o.to_.GetLikeChainID.isSome = true ∧
      IdentifierToLikeChainID s o.to_ = none) ∧
  (r = R.TransferNotEnoughBalance →
    ∃ sid, IdentifierToLikeChainID s tx.from_ = some sid ∧
      ∃ k, 1 ≤ k ∧ k ≤ tx.toList.length ∧
        FetchBalance s sid.ToIdentifier < tx.fee + valuesTotal (tx.toList.take k)) ∧
  (r = R.Success ↔
    validateTransferTransactionFormat tx = true ∧
    (∃ sid, IdentifierToLikeChainID s tx.from_ = some sid ∧
      validateTransferSignature s tx = true ∧
      tx.nonce = FetchNextNonce s sid ∧
      tx.toList.all (receiverOk s) = true ∧
      runningOk (FetchBalance s sid.ToIdentifier) tx.fee tx.toList = true)) ∧
  ((validateTransferTransactionFormat tx = true ∧
    (∃ sid, IdentifierToLikeChainID s tx.from_ = some sid ∧
      validateTransferSignature s tx = true ∧
      tx.nonce = FetchNextNonce s sid ∧
      ¬(tx.toList.all (receiverOk s) = true ∧
        runningOk (FetchBalance s sid.ToIdentifier) tx.fee tx.toList = true))) →
    r = R.TransferInvalidReceiver ∨ r = R.TransferNotEnoughBalance) ∧
  r ≠ R.RegisterDuplicated

theorem pipelineCharacter_checkTransfer (s : State) (tx : TransferTransaction) :
    pipelineCharacter s tx (checkTransfer s tx) := by
  cases hf : validateTransferTransactionFormat tx with
  | false =>
    have hr : checkTransfer s tx = R.TransferInvalidFormat := by
      simp [checkTransfer, hf]
    rw [hr]
    simp [pipelineCharacter, hf]
  | true =>
    cases hres : IdentifierToLikeChainID s tx.from_ with
    | none =>
      have hr : checkTransfer s tx = R.TransferSenderNotRegistered := by
        simp [checkTransfer, hf, hres]
      rw [hr]
      simp [pipelineCharacter, hf, hres]
    | some sid =>
      cases hsig : validateTransferSignature s tx with
      | false =>
        have hr : checkTransfer s tx = R.TransferInvalidSignature := by
          simp [checkTransfer, hf, hres, hsig]
        rw [hr]
        simp [pipelineCharacter, hf, hres, hsig]
      | true =>
        by_cases h1 : FetchNextNonce s sid < tx.nonce
        · have hr : checkTransfer s tx = R.TransferInvalidNonce := by
            simp [checkTransfer, hf, hres, hsig, h1]
          rw [hr]
          refine ⟨by simp [hf], by simp [hres], by simp [hsig], ?_, ?_, by simp,
            by simp, ?_, ?_, by simp⟩
          · simp only [true_iff]
            exact ⟨hf, sid, hres, hsig, h1⟩
          · simp only [hf, true_and, iff_def]
            constructor
            · intro h
              exact absurd h (by simp)
            · rintro ⟨sid2, hsid2, -, h2⟩
              rw [hres] at hsid2
              injection hsid2 with he
              subst he
              omega
          · simp only [hf, true_and, iff_def]
            constructor
            · intro h
              exact absurd h (by simp)
            · rintro ⟨sid2, hsid2, -, h2, -⟩
              rw [hres] at hsid2
              injection hsid2 with he
              subst he
              omega
          · rintro ⟨-, sid2, hsid2, -, h2, -⟩
            rw [hres] at hsid2
            injection hsid2 with he
            subst he
            omega
        · by_cases h2 : tx.nonce < FetchNextNonce s sid
          · have hr : checkTransfer s tx = R.TransferDuplicated := by
              simp [checkTransfer, hf, hres, hsig, h1, h2]
            rw [hr]
            refine ⟨by simp [hf], by simp [hres], by simp [hsig], ?_, ?_, by simp,
              by simp, ?_, ?_, by simp⟩
            · simp only [hf, true_and, iff_def]
              constructor
              · intro h
                exact absurd h (by simp)
              · rintro ⟨sid2, hsid2, -, h3⟩
                rw [hres] at hsid2
                injection hsid2 with he
                subst he
                omega
            · simp only [true_iff]
              exact ⟨hf, sid, hres, hsig, h2⟩
            · simp only [hf, true_and, iff_def]
              constructor
              · intro h
                exact absurd h (by simp)
              · rintro ⟨sid2, hsid2, -, h3, -⟩
                rw [hres] at hsid2
                injection hsid2 with he
                subst he
                omega
            · rintro ⟨-, sid2, hsid2, -, h3, -⟩
              rw [hres] at hsid2
              injection hsid2 with he
              subst he
              omega
          · have hn : tx.nonce = FetchNextNonce s sid := by omega
            have hr : checkTransfer s tx =
                checkLoop s (FetchBalance s sid.ToIdentifier) tx.fee tx.toList :=
              checkTransfer_eq_of_valid s tx sid hf hres hsig hn
            rcases checkLoop_cases s (FetchBalance s sid.ToIdentifier)
              tx.fee tx.toList with hc | hc | hc
            · rw [hr, hc]
              obtain ⟨hall, hrun⟩ :=
                (checkLoop_success_iff s (FetchBalance s sid.ToIdentifier)
                  tx.fee tx.toList).mp hc
              refine ⟨by simp [hf], by simp [hres], by simp [hsig], ?_, ?_,
                by simp, by simp, ?_, ?_, by simp⟩
              · simp only [hf, true_and, iff_def]
                constructor
                · intro h
                  exact absurd h (by simp)
                · rintro ⟨sid2, hsid2, -, h3⟩
                  rw [hres] at hsid2
                  injection hsid2 with he
                  subst he
                  omega
              · simp only [hf, true_and, iff_def]
                constructor
                · intro h
                  exact absurd h (by simp)
                · rintro ⟨sid2, hsid2, -, h3⟩
                  rw [hres] at hsid2
                  injection hsid2 with he
                  subst he
                  omega
              · simp only [true_iff]
                exact ⟨hf, sid, hres, hsig, hn, hall, hrun⟩
              · rintro ⟨-, sid2, hsid2, -, -, hbad⟩
                rw [hres] at hsid2
                injection hsid2 with he
                subst he
                exact absurd ⟨hall, hrun⟩ hbad
            · rw [hr, hc]
              refine ⟨by simp [hf], by simp [hres], by simp [hsig], ?_, ?_,
                ?_, by simp, ?_, fun _ => Or.inl rfl, by simp⟩
              · simp only [hf, true_and, iff_def]
                constructor
                · intro h
                  exact absurd h (by simp)
                · rintro ⟨sid2, hsid2, -, h3⟩
                  rw [hres] at hsid2
                  injection hsid2 with he
                  subst he
                  omega
              · simp only [hf, true_and, iff_def]
                constructor
                · intro h
                  exact absurd h (by simp)
                · rintro ⟨sid2, hsid2, -, h3⟩
                  rw [hres] at hsid2
                  injection hsid2 with he
                  subst he
                  omega
              · intro _
                exact checkLoop_receiver_imp s (FetchBalance s sid.ToIdentifier)
                  tx.fee tx.toList hc
              · simp only [hf, true_and, iff_def]
                constructor
                · intro h
                  exact absurd h (by simp)
                · rintro ⟨sid2, hsid2, -, -, hall, hrun⟩
                  rw [hres] at hsid2
                  injection hsid2 with he
                  subst he
                  rw [(checkLoop_success_iff _ _ _ _).mpr ⟨hall, hrun⟩] at hc
                  exact absurd hc (by simp)
            · rw [hr, hc]
              have hrun : runningOk (FetchBalance s sid.ToIdentifier)
                  tx.fee tx.toList = false :=
                checkLoop_balance_imp s (FetchBalance s sid.ToIdentifier)
                  tx.fee tx.toList hc
              have hk : ∃ k, 1 ≤ k ∧ k ≤ tx.toList.length ∧
                  FetchBalance s sid.ToIdentifier <
                    tx.fee + valuesTotal (tx.toList.take k) := by
                by_contra hcon
                push_neg at hcon
                have : runningOk (FetchBalance s sid.ToIdentifier)
                    tx.fee tx.toList = true :=
                  (runningOk_iff _ _ _).mpr fun k hk1 hk2 => hcon k hk1 hk2
                rw [this] at hrun
                exact absurd hrun (by simp)
              refine ⟨by simp [hf], by simp [hres], by simp [hsig], ?_, ?_,
                by simp, fun _ => ⟨sid, hres, hk⟩, ?_, fun _ => Or.inr rfl,
                by simp⟩
              · simp only [hf, true_and, iff_def]
                constructor
                · intro h
                  exact absurd h (by simp)
                · rintro ⟨sid2, hsid2, -, h3⟩
                  rw [hres] at hsid2
                  injection hsid2 with he
                  subst he
                  omega
              · simp only [hf, true_and, iff_def]
                constructor
                · intro h
                  exact absurd h (by simp)
                · rintro ⟨sid2, hsid2, -, h3⟩
                  rw [hres] at hsid2
                  injection hsid2 with he
                  subst he
                  omega
              · simp only [hf, true_and, iff_def]
                constructor
                · intro h
                  exact absurd h (by simp)
                · rintro ⟨sid2, hsid2, -, -, -, hrun2⟩
                  rw [hres] at hsid2
                  injection hsid2 with he
                  subst he
                  rw [hrun2] at hrun
                  exact absurd hrun (by simp)

/-- C3: for every Transfer transaction, both `checkTransfer` and the
validation of `deliver` evaluate the steps in the fixed order format,
sender-registered, signature, nonce, receiver/balance and return the
error of the first failing step — `InvalidFormat`, then
`SenderNotRegistered`, then `InvalidSignature`, then `InvalidNonce`
(nonce greater) / `Duplicated` (nonce less), then `NotEnoughBalance`
or `InvalidReceiver` from the output loop, with Success exactly when
every step passes. -/
theorem claim3_pipeline_order (s : State) (tx : TransferTransaction) :
    pipelineCharacter s tx (checkTransfer s tx) ∧
    pipelineCharacter s tx ((deliver s tx).1) := by
  refine ⟨pipelineCharacter_checkTransfer s tx, ?_⟩
  rw [deliver_fst_eq_checkTransfer]
  exact pipelineCharacter_checkTransfer s tx

theorem runningOk_false_iff (b : Int) (total : Int) (l : List TransferOutput) :
    runningOk b total l = false ↔
      ∃ k, 1 ≤ k ∧ k ≤ l.length ∧ b < total + valuesTotal (l.take k) := by
  constructor
  · intro hfalse
    by_contra hcon
    push_neg at hcon
    have ht : runningOk b total l = true :=
      (runningOk_iff b total l).mpr fun k h1 h2 => hcon k h1 h2
    rw [ht] at hfalse
    exact absurd hfalse (by simp)
  · rintro ⟨k, h1, h2, h3⟩
    cases hb : runningOk b total l with
    | false => rfl
    | true =>
      have := (runningOk_iff b total l).mp hb k h1 h2
      omega

/-- C5: for every Transfer transaction passing format, sender,
signature, nonce and receiver resolution, the balance validation step
fails with `NotEnoughBalance` — in both `checkTransfer` and `deliver`
— if and only if at some non-empty prefix of the ordered output list
the running sum `fee + Σ values` exceeds the sender's balance. -/
theorem claim5_balance_prefix_iff (s : State) (tx : TransferTransaction)
    (sid : LikeChainID)
    (hf : validateTransferTransactionFormat tx = true)
    (hs : IdentifierToLikeChainID s tx.from_ = some sid)
    (hsig : validateTransferSignature s tx = true)
    (hn : tx.nonce = FetchNextNonce s sid)
    (hrc : tx.toList.all (receiverOk s) = true) :
    (checkTransfer s tx = R.TransferNotEnoughBalance ↔
      ∃ k, 1 ≤ k ∧ k ≤ tx.toList.length ∧
        FetchBalance s sid.ToIdentifier <
          tx.fee + valuesTotal (tx.toList.take k)) ∧
    ((deliver s tx).1 = R.TransferNotEnoughBalance ↔
      ∃ k, 1 ≤ k ∧ k ≤ tx.toList.length ∧
        FetchBalance s sid.ToIdentifier <
          tx.fee + valuesTotal (tx.toList.take k)) := by
  have hmain : checkTransfer s tx = R.TransferNotEnoughBalance ↔
      ∃ k, 1 ≤ k ∧ k ≤ tx.toList.length ∧
        FetchBalance s sid.ToIdentifier <
          tx.fee + valuesTotal (tx.toList.take k) := by
    rw [checkTransfer_eq_of_valid s tx sid hf hs hsig hn,
      checkLoop_notEnough_iff s _ tx.fee tx.toList hrc,
      runningOk_false_iff]
  refine ⟨hmain, ?_⟩
  rw [deliver_fst_eq_checkTransfer]
  exact hmain

/-- A concrete over-budget transfer: A pays 50 to B and 51 to C at
nonce 1 with fee 0, but A only has 100. -/
def txOverBudget : TransferTransaction :=
  { from_ := Identifier.id idA
    toList := [⟨Identifier.id idB, 50, []⟩, ⟨Identifier.id idC, 51, []⟩]
    nonce := 1
    fee := 0
    sig := sigA }

/-- A hash value for the concrete transactions. -/
def txHash1 : Bytes := [101]

theorem claim5_witness :
    checkTransfer testState txOverBudget = R.TransferNotEnoughBalance ∧
    (deliver testState txOverBudget).1 = R.TransferNotEnoughBalance := by
  have h := claim5_balance_prefix_iff testState txOverBudget idA
    (by decide) (by decide) (by decide) (by decide) (by decide)
  exact ⟨h.1.mpr ⟨2, by decide, by decide, by decide⟩,
    h.2.mpr ⟨2, by decide, by decide, by decide⟩⟩

/-- C1: a Transfer that passes format, sender, signature and nonce
validation but fails the balance step is rejected with
`NotEnoughBalance`, leaves the sender's and every other account's
balance and every unclaimed slot unchanged, yet increments the
sender's next-nonce by 1 and records terminal status Fail. -/
theorem claim1_insufficient_balance_consumes_nonce (s : State)
    (tx : TransferTransaction) (txHash : Bytes) (sid : LikeChainID)
    (acc : Account)
    (hf : validateTransferTransactionFormat tx = true)
    (hs : IdentifierToLikeChainID s tx.from_ = some sid)
    (hacc : s.accounts sid = some acc)
    (hsig : validateTransferSignature s tx = true)
    (hn : tx.nonce = acc.nextNonce)
    (hfit : acc.nextNonce + 1 < 2 ^ 64)
    (hrc : tx.toList.all (receiverOk s) = true)
    (hbad : ∃ k, 1 ≤ k ∧ k ≤ tx.toList.length ∧
      FetchBalance s sid.ToIdentifier <
        tx.fee + valuesTotal (tx.toList.take k))
    (hstat : GetStatus s txHash = TxStatus.NotSet) :
    (deliverTransfer s tx txHash).1 = R.TransferNotEnoughBalance ∧
    (deliverTransfer s tx txHash).2.accounts sid =
      some ⟨acc.balance, acc.nextNonce + 1⟩ ∧
    (∀ j, j ≠ sid → (deliverTransfer s tx txHash).2.accounts j = s.accounts j) ∧
    (∀ a, (deliverTransfer s tx txHash).2.unclaimed a = s.unclaimed a) ∧
    GetStatus (deliverTransfer s tx txHash).2 txHash = TxStatus.Fail := by
  have hnn : FetchNextNonce s sid = acc.nextNonce := by
    simp [FetchNextNonce, hacc]
  have hn2 : tx.nonce = FetchNextNonce s sid := by rw [hnn, hn]
  have hloop : checkLoop s (FetchBalance s sid.ToIdentifier) tx.fee tx.toList =
      R.TransferNotEnoughBalance := by
    rw [checkLoop_notEnough_iff s _ tx.fee tx.toList hrc,
      runningOk_false_iff]
    exact hbad
  have hdel : deliver s tx =
      (R.TransferNotEnoughBalance, IncrementNextNonce s sid) :=
    deliver_fail_of_valid s tx sid R.TransferNotEnoughBalance
      hf hs hsig hn2 hloop (by simp)
  have hpost : deliverTransfer s tx txHash =
      (R.TransferNotEnoughBalance,
        SetStatus (IncrementNextNonce s sid) txHash TxStatus.Fail) := by
    simp only [deliverTransfer, hdel, GetStatus, IncrementNextNonce_txStatus]
    rw [show s.txStatus txHash = TxStatus.NotSet from hstat]
    simp [R.code]
  rw [hpost]
  refine ⟨rfl, ?_, ?_, ?_, ?_⟩
  · show (IncrementNextNonce s sid).accounts sid = _
    rw [IncrementNextNonce_accounts_self s sid acc hacc]
    have hmod : (acc.nextNonce + 1) % 2 ^ 64 = acc.nextNonce + 1 :=
      Nat.mod_eq_of_lt hfit
    rw [hmod]
  · intro j hj
    show (IncrementNextNonce s sid).accounts j = s.accounts j
    exact IncrementNextNonce_accounts_other s sid j hj
  · intro a
    rfl
  · simp [GetStatus, SetStatus]

theorem claim1_witness :
    (deliverTransfer testState txOverBudget txHash1).1 =
      R.TransferNotEnoughBalance ∧
    (deliverTransfer testState txOverBudget txHash1).2.accounts idA =
      some ⟨100, 2⟩ ∧
    (deliverTransfer testState txOverBudget txHash1).2.accounts idB =
      some ⟨200, 1⟩ ∧
    GetStatus (deliverTransfer testState txOverBudget txHash1).2 txHash1 =
      TxStatus.Fail := by
  have h := claim1_insufficient_balance_consumes_nonce testState txOverBudget
    txHash1 idA ⟨100, 1⟩ (by decide) (by decide) (by decide) (by decide)
    (by decide) (by decide) (by decide)
    ⟨2, by decide, by decide, by decide⟩ (by decide)
  refine ⟨h.1, h.2.1, ?_, h.2.2.2.2⟩
  exact (h.2.2.1 idB (by decide)).trans (by decide)

/-- C7: format validation passes iff the sender identifier is
well-formed, the output list is non-empty, every output is well-formed
with remark at most 4096 bytes, and the signature is well-formed; a
transaction failing the format check is rejected with
`TransferInvalidFormat` and leaves every account balance, nonce and
unclaimed slot unchanged. -/
theorem claim7_format_validation (s : State) (tx : TransferTransaction)
    (txHash : Bytes) :
    (validateTransferTransactionFormat tx = true ↔
      tx.from_.IsValidFormat = true ∧ tx.toList ≠ [] ∧
      (∀ o ∈ tx.toList, o.IsValidFormat = true ∧ o.remark.length ≤ 4096) ∧
      tx.sig.IsValidFormat = true) ∧
    (validateTransferTransactionFormat tx = false →
      (deliverTransfer s tx txHash).1 = R.TransferInvalidFormat ∧
      (∀ j, (deliverTransfer s tx txHash).2.accounts j = s.accounts j) ∧
      (∀ a, (deliverTransfer s tx txHash).2.unclaimed a = s.unclaimed a)) := by
  constructor
  · cases hfrom : tx.from_.IsValidFormat with
    | false =>
      simp [validateTransferTransactionFormat, hfrom]
    | true =>
      cases htl : tx.toList with
      | nil => simp [validateTransferTransactionFormat, hfrom, htl]
      | cons o rest =>
        simp only [validateTransferTransactionFormat, hfrom, Bool.not_true,
          Bool.false_eq_true, if_false, htl, List.length_cons, maxRemarkSize]
        simp [List.all_eq_true, Bool.and_eq_true, and_assoc]
  · intro hform
    have hdel := deliver_format_fail s tx hform
    have hpost : deliverTransfer s tx txHash =
        (R.TransferInvalidFormat,
          if s.txStatus txHash = TxStatus.NotSet
          then SetStatus s txHash TxStatus.Fail else s) := by
      simp [deliverTransfer, hdel, GetStatus, R.code]
    rw [hpost]
    refine ⟨rfl, ?_, ?_⟩
    · intro j
      by_cases hcase : s.txStatus txHash = TxStatus.NotSet <;>
        simp [hcase, SetStatus]
    · intro a
      by_cases hcase : s.txStatus txHash = TxStatus.NotSet <;>
        simp [hcase, SetStatus]

/-- A transfer with a remark of exactly 4096 bytes. -/
def txRemarkOk : TransferTransaction :=
  { from_ := Identifier.id idA
    toList := [⟨Identifier.id idB, 1, List.replicate 4096 0⟩]
    nonce := 1
    fee := 0
    sig := sigA }

/-- The same transfer with a remark of 4097 bytes. -/
def txRemarkBad : TransferTransaction :=
  { from_ := Identifier.id idA
    toList := [⟨Identifier.id idB, 1, List.replicate 4097 0⟩]
    nonce := 1
    fee := 0
    sig := sigA }

theorem claim7_witness :
    validateTransferTransactionFormat txRemarkOk = true ∧
    validateTransferTransactionFormat txRemarkBad = false ∧
    (deliverTransfer testState txRemarkBad txHash1).1 =
      R.TransferInvalidFormat ∧
    (deliverTransfer testState txRemarkBad txHash1).2.accounts idA =
      some ⟨100, 1⟩ := by
  have hbad : validateTransferTransactionFormat txRemarkBad = false := by
    cases hfb : validateTransferTransactionFormat txRemarkBad with
    | false => rfl
    | true =>
      obtain ⟨-, -, hall, -⟩ :=
        (claim7_format_validation testState txRemarkBad txHash1).1.mp hfb
      have hmem : (⟨Identifier.id idB, 1, List.replicate 4097 0⟩ :
          TransferOutput) ∈ txRemarkBad.toList :=
        List.mem_singleton.mpr rfl
      have hlen := (hall _ hmem).2
      rw [List.length_replicate] at hlen
      omega
  obtain ⟨h1, h2, h3⟩ :=
    (claim7_format_validation testState txRemarkBad txHash1).2 hbad
  refine ⟨?_, hbad, h1, (h2 idA).trans (by decide)⟩
  refine (claim7_format_validation testState txRemarkOk txHash1).1.mpr
    ⟨by decide, List.cons_ne_nil _ _, ?_, by decide⟩
  intro o ho
  have ho2 : o = ⟨Identifier.id idB, 1, List.replicate 4096 0⟩ :=
    List.mem_singleton.mp ho
  subst ho2
  refine ⟨by decide, ?_⟩
  show (List.replicate 4096 (0 : Nat)).length ≤ 4096
  rw [List.length_replicate]

/-- C10: a Transfer from an account to itself — single output of value
`v` back to the sender, fee 0 — with correct nonce and sufficient
balance succeeds and leaves the sender's balance unchanged while
incrementing its next-nonce by exactly 1. -/
theorem claim10_self_transfer (s : State) (tx : TransferTransaction)
    (sid : LikeChainID) (acc : Account) (o : TransferOutput)
    (hf : validateTransferTransactionFormat tx = true)
    (hs : IdentifierToLikeChainID s tx.from_ = some sid)
    (hacc : s.accounts sid = some acc)
    (hsig : validateTransferSignature s tx = true)
    (hn : tx.nonce = acc.nextNonce)
    (hfit : acc.nextNonce + 1 < 2 ^ 64)
    (hout : tx.toList = [o])
    (hself : IdentifierToLikeChainID s o.to_ = some sid)
    (hfee : tx.fee = 0)
    (hval : o.value ≤ acc.balance) :
    (deliver s tx).1 = R.Success ∧
    (deliver s tx).2.accounts sid = some ⟨acc.balance, acc.nextNonce + 1⟩ := by
  have hnn : FetchNextNonce s sid = acc.nextNonce := by
    simp [FetchNextNonce, hacc]
  have hn2 : tx.nonce = FetchNextNonce s sid := by rw [hnn, hn]
  have hbal : FetchBalance s sid.ToIdentifier = acc.balance := by
    simp [FetchBalance, LikeChainID.ToIdentifier, hacc]
  have hrc : tx.toList.all (receiverOk s) = true := by
    rw [hout]
    simp [receiverOk, hself]
  have hrun : runningOk (FetchBalance s sid.ToIdentifier) tx.fee tx.toList =
      true := by
    rw [hout, hbal, hfee]
    simp only [runningOk, Bool.and_eq_true, Bool.not_eq_true',
      decide_eq_false_iff_not, not_lt, zero_add]
    exact ⟨hval, trivial⟩
  have hloop : checkLoop s (FetchBalance s sid.ToIdentifier) tx.fee tx.toList =
      R.Success :=
    (checkLoop_success_iff s _ tx.fee tx.toList).mpr ⟨hrc, hrun⟩
  have hdel := deliver_success_of_valid s tx sid hf hs hsig hn2 hloop
  have hmod : (acc.nextNonce + 1) % 2 ^ 64 = acc.nextNonce + 1 :=
    Nat.mod_eq_of_lt hfit
  have hs1 : (IncrementNextNonce s sid).accounts sid =
      some ⟨acc.balance, acc.nextNonce + 1⟩ := by
    rw [IncrementNextNonce_accounts_self s sid acc hacc, hmod]
  have hpairs : resolvedPairs s tx.toList = [(Identifier.id sid, o.value)] := by
    rw [hout]
    simp [resolvedPairs, resolveIden, hself, LikeChainID.ToIdentifier]
  have hcredit : (creditAll (resolvedPairs s tx.toList)
      (IncrementNextNonce s sid)).accounts sid =
      some ⟨acc.balance + o.value, acc.nextNonce + 1⟩ := by
    rw [hpairs]
    simp [creditAll, AddBalance, hs1]
  have hsum : tx.fee + valuesTotal tx.toList = o.value := by
    rw [hout, hfee]
    simp [valuesTotal]
  rw [hdel]
  refine ⟨rfl, ?_⟩
  show (MinusBalance _ sid.ToIdentifier _).accounts sid = _
  rw [MinusBalance_accounts_self _ sid ⟨acc.balance + o.value, acc.nextNonce + 1⟩
    _ hcredit, hsum]
  simp

/-- A self-transfer of value 5 from A back to A. -/
def txSelf : TransferTransaction :=
  { from_ := Identifier.id idA
    toList := [⟨Identifier.id idA, 5, []⟩]
    nonce := 1
    fee := 0
    sig := sigA }

theorem claim10_witness :
    (deliver testState txSelf).1 = R.Success ∧
    (deliver testState txSelf).2.accounts idA = some ⟨100, 2⟩ :=
  claim10_self_transfer testState txSelf idA ⟨100, 1⟩ ⟨Identifier.id idA, 5, []⟩
    (by decide) (by decide) (by decide) (by decide) (by decide) (by decide)
    (by decide) (by decide) (by decide) (by decide)

/-- C2: in a delivered Transfer with two or more outputs whose
receivers resolve to the same account, the duplicates are merged by
summation — the receiver is credited with the sum of all its outputs'
values — and the sender is debited once for fee plus the sum of all
output values.  (The Go map is keyed by identifier pointer; pointers
never collide across iterations, so every output contributes its own
credit.) -/
theorem claim2_duplicate_outputs_summed (s : State) (tx : TransferTransaction)
    (sid rid : LikeChainID) (accS accR : Account)
    (hf : validateTransferTransactionFormat tx = true)
    (hs : IdentifierToLikeChainID s tx.from_ = some sid)
    (haccS : s.accounts sid = some accS)
    (hsig : validateTransferSignature s tx = true)
    (hn : tx.nonce = accS.nextNonce)
    (hrc : tx.toList.all (receiverOk s) = true)
    (hrun : runningOk (FetchBalance s sid.ToIdentifier) tx.fee tx.toList = true)
    (hner : rid ≠ sid)
    (haccR : s.accounts rid = some accR)
    (_hdup : 2 ≤ (tx.toList.filter fun o =>
      IdentifierToLikeChainID s o.to_ == some rid).length)
    (hself : valueToResolved s sid tx.toList = 0) :
    (deliver s tx).1 = R.Success ∧
    (deliver s tx).2.accounts rid =
      some ⟨accR.balance + valueToResolved s rid tx.toList, accR.nextNonce⟩ ∧
    ∃ n2, (deliver s tx).2.accounts sid =
      some ⟨accS.balance - (tx.fee + valuesTotal tx.toList), n2⟩ := by
  have hnn : FetchNextNonce s sid = accS.nextNonce := by
    simp [FetchNextNonce, haccS]
  have hn2 : tx.nonce = FetchNextNonce s sid := by rw [hnn, hn]
  have hloop : checkLoop s (FetchBalance s sid.ToIdentifier) tx.fee tx.toList =
      R.Success :=
    (checkLoop_success_iff s _ tx.fee tx.toList).mpr ⟨hrc, hrun⟩
  have hdel := deliver_success_of_valid s tx sid hf hs hsig hn2 hloop
  have hps : ∀ p ∈ resolvedPairs s tx.toList, ∀ a,
      p.1 = Identifier.addr a → (IncrementNextNonce s sid).addrToId a = none := by
    intro p hp a ha
    rw [IncrementNextNonce_addrToId]
    exact resolvedPairs_addr_unbound s tx.toList p hp a ha
  rw [hdel]
  refine ⟨rfl, ?_, ?_⟩
  · have hr1 : (IncrementNextNonce s sid).accounts rid = some accR := by
      rw [IncrementNextNonce_accounts_other s sid rid hner]
      exact haccR
    have hr2 := creditAll_accounts_at (resolvedPairs s tx.toList)
      (IncrementNextNonce s sid) rid accR hr1 hps
    show (MinusBalance _ sid.ToIdentifier _).accounts rid = _
    rw [MinusBalance_accounts_other _ sid rid _ hner, hr2,
      pairsTo_resolvedPairs s rid tx.toList hrc]
  · have hs1 : (IncrementNextNonce s sid).accounts sid =
        some ⟨accS.balance, (accS.nextNonce + 1) % 2 ^ 64⟩ :=
      IncrementNextNonce_accounts_self s sid accS haccS
    have hs2 := creditAll_accounts_at (resolvedPairs s tx.toList)
      (IncrementNextNonce s sid) sid
      ⟨accS.balance, (accS.nextNonce + 1) % 2 ^ 64⟩ hs1 hps
    rw [pairsTo_resolvedPairs s sid tx.toList hrc, hself] at hs2
    refine ⟨(accS.nextNonce + 1) % 2 ^ 64, ?_⟩
    show (MinusBalance _ sid.ToIdentifier _).accounts sid = _
    rw [MinusBalance_accounts_self _ sid
      ⟨accS.balance + 0, (accS.nextNonce + 1) % 2 ^ 64⟩ _ hs2]
    simp [sub_eq_add_neg]

/-- A transfer with two outputs to the same receiver B (3 and 4). -/
def txDup : TransferTransaction :=
  { from_ := Identifier.id idA
    toList := [⟨Identifier.id idB, 3, []⟩, ⟨Identifier.id idB, 4, []⟩]
    nonce := 1
    fee := 0
    sig := sigA }

theorem claim2_witness :
    (deliver testState txDup).1 = R.Success ∧
    (deliver testState txDup).2.accounts idB = some ⟨207, 1⟩ ∧
    ∃ n2, (deliver testState txDup).2.accounts idA = some ⟨93, n2⟩ := by
  have h := claim2_duplicate_outputs_summed testState txDup idA idB
    ⟨100, 1⟩ ⟨200, 1⟩ (by decide) (by decide) (by decide) (by decide)
    (by decide) (by decide) (by decide) (by decide) (by decide)
    (by decide) (by decide)
  refine ⟨h.1, h.2.1.trans (by decide), ?_⟩
  obtain ⟨n2, hsid⟩ := h.2.2
  have hv : (⟨100, 1⟩ : Account).balance -
      (txDup.fee + valuesTotal txDup.toList) = 93 := by decide
  exact ⟨n2, by rw [hsid, hv]⟩

/-- C6: a delivered Transfer with outputs to an address with no
binding credits those outputs' values to the address's unclaimed
slot: `address_info` then returns the synthetic record
`{id: empty, balance: credited value, nextNonce: 0}`, `account_info`
for the address fails (InvalidIdentifier), and a later Register of
that address starts the new account with exactly the unclaimed
amount. -/
theorem claim6_unclaimed_address_credit (s : State) (tx : TransferTransaction)
    (sid : LikeChainID) (accS : Account) (x : Address)
    (hf : validateTransferTransactionFormat tx = true)
    (hs : IdentifierToLikeChainID s tx.from_ = some sid)
    (haccS : s.accounts sid = some accS)
    (hsig : validateTransferSignature s tx = true)
    (hn : tx.nonce = accS.nextNonce)
    (hrc : tx.toList.all (receiverOk s) = true)
    (hrun : runningOk (FetchBalance s sid.ToIdentifier) tx.fee tx.toList = true)
    (hx : s.addrToId x = none)
    (hxu : s.unclaimed x = none)
    (hout : (tx.toList.filter fun o => o.to_ == Identifier.addr x) ≠ []) :
    (deliver s tx).1 = R.Success ∧
    (deliver s tx).2.unclaimed x =
      some ((tx.toList.filter fun o => o.to_ == Identifier.addr x).map
        TransferOutput.value).sum ∧
    addressInfoQuery (deliver s tx).2 x =
      some ⟨[], ((tx.toList.filter fun o => o.to_ == Identifier.addr x).map
        TransferOutput.value).sum, 0⟩ ∧
    accountInfoQuery (deliver s tx).2 (Identifier.addr x) = none ∧
    (∀ newID, (register (deliver s tx).2 x newID).1 = R.Success ∧
      (register (deliver s tx).2 x newID).2.accounts newID =
        some ⟨((tx.toList.filter fun o => o.to_ == Identifier.addr x).map
          TransferOutput.value).sum, 1⟩) := by
  have hnn : FetchNextNonce s sid = accS.nextNonce := by
    simp [FetchNextNonce, haccS]
  have hn2 : tx.nonce = FetchNextNonce s sid := by rw [hnn, hn]
  have hloop : checkLoop s (FetchBalance s sid.ToIdentifier) tx.fee tx.toList =
      R.Success :=
    (checkLoop_success_iff s _ tx.fee tx.toList).mpr ⟨hrc, hrun⟩
  have hdel := deliver_success_of_valid s tx sid hf hs hsig hn2 hloop
  have hx1 : (IncrementNextNonce s sid).addrToId x = none := by
    rw [IncrementNextNonce_addrToId]
    exact hx
  have hu1 : (creditAll (resolvedPairs s tx.toList)
      (IncrementNextNonce s sid)).unclaimed x =
      some ((tx.toList.filter fun o => o.to_ == Identifier.addr x).map
        TransferOutput.value).sum := by
    rw [creditAll_unclaimed_at (resolvedPairs s tx.toList)
      (IncrementNextNonce s sid) x hx1]
    rw [IncrementNextNonce_unclaimed, hxu, unclaimedValues_resolvedPairs s x hx]
    exact bumpFold_none _ (by simpa using hout)
  have hpost : (deliver s tx).2 =
      MinusBalance
        (creditAll (resolvedPairs s tx.toList) (IncrementNextNonce s sid))
        sid.ToIdentifier (tx.fee + valuesTotal tx.toList) := by
    rw [hdel]
  have hpostu : (deliver s tx).2.unclaimed x =
      some ((tx.toList.filter fun o => o.to_ == Identifier.addr x).map
        TransferOutput.value).sum := by
    rw [hpost, MinusBalance_unclaimed]
    exact hu1
  have hpostb : (deliver s tx).2.addrToId x = none := by
    rw [hpost, MinusBalance_addrToId, creditAll_addrToId,
      IncrementNextNonce_addrToId]
    exact hx
  refine ⟨by rw [hdel], hpostu, ?_, ?_, ?_⟩
  · simp [addressInfoQuery, hpostb, hpostu]
  · simp [accountInfoQuery, IdentifierToLikeChainID, hpostb]
  · intro newID
    constructor
    · simp [register, hpostb]
    · simp [register, hpostb, hpostu]

/-- A transfer paying 1 to B's account and 1 to the unbound address
X (mirroring end-to-end scenario 4 of the spec). -/
def txToX : TransferTransaction :=
  { from_ := Identifier.id idA
    toList := [⟨Identifier.id idB, 1, []⟩, ⟨Identifier.addr addrX, 1, []⟩]
    nonce := 1
    fee := 0
    sig := sigA }

/-- A fresh internal ID for X's later registration. -/
def idX : LikeChainID := ⟨tb 4⟩

theorem claim6_witness :
    (deliver testState txToX).1 = R.Success ∧
    (deliver testState txToX).2.unclaimed addrX = some 1 ∧
    addressInfoQuery (deliver testState txToX).2 addrX = some ⟨[], 1, 0⟩ ∧
    accountInfoQuery (deliver testState txToX).2 (Identifier.addr addrX) =
      none ∧
    (register (deliver testState txToX).2 addrX idX).2.accounts idX =
      some ⟨1, 1⟩ := by
  have h := claim6_unclaimed_address_credit testState txToX idA ⟨100, 1⟩ addrX
    (by decide) (by decide) (by decide) (by decide) (by decide) (by decide)
    (by decide) (by decide) (by decide) (by decide)
  have hsum : ((txToX.toList.filter fun o =>
      o.to_ == Identifier.addr addrX).map TransferOutput.value).sum = 1 := by
    decide
  refine ⟨h.1, ?_, ?_, h.2.2.2.1, ?_⟩
  · rw [h.2.1, hsum]
  · rw [h.2.2.1, hsum]
  · rw [(h.2.2.2.2 idX).2, hsum]

theorem validateTransferSignature_congr (s s2 : State)
    (tx : TransferTransaction) (h : s2.addrToId = s.addrToId) :
    validateTransferSignature s2 tx = validateTransferSignature s tx := by
  simp only [validateTransferSignature, IsLikeChainIDHasAddress, h]

theorem deliver_duplicated (s : State) (tx : TransferTransaction)
    (sid : LikeChainID)
    (hf : validateTransferTransactionFormat tx = true)
    (hs : IdentifierToLikeChainID s tx.from_ = some sid)
    (hsig : validateTransferSignature s tx = true)
    (h2 : tx.nonce < FetchNextNonce s sid) :
    deliver s tx = (R.TransferDuplicated, s) := by
  have h1 : ¬ FetchNextNonce s sid < tx.nonce := by omega
  simp [deliver, hf, hs, hsig, h1, h2]

/-- C4: a stored transaction status is written at most once — when it
is already terminal, a further `deliverTransfer` with the same hash
leaves it unchanged; and after a successful delivery, a second
delivery of the same transaction returns `Duplicated` (the nonce was
consumed) while the stored status still reports the first terminal
outcome. -/
theorem claim4_status_write_once (s : State) (tx : TransferTransaction)
    (txHash : Bytes) :
    (GetStatus s txHash ≠ TxStatus.NotSet →
      GetStatus (deliverTransfer s tx txHash).2 txHash = GetStatus s txHash) ∧
    (∀ sid accS,
      validateTransferTransactionFormat tx = true →
      IdentifierToLikeChainID s tx.from_ = some sid →
      s.accounts sid = some accS →
      validateTransferSignature s tx = true →
      tx.nonce = accS.nextNonce →
      accS.nextNonce + 1 < 2 ^ 64 →
      GetStatus s txHash = TxStatus.NotSet →
      (deliver s tx).1 = R.Success →
      GetStatus (deliverTransfer s tx txHash).2 txHash = TxStatus.Success ∧
      (deliverTransfer (deliverTransfer s tx txHash).2 tx txHash).1 =
        R.TransferDuplicated ∧
      GetStatus (deliverTransfer (deliverTransfer s tx txHash).2 tx txHash).2
        txHash = TxStatus.Success) := by
  constructor
  · intro hne
    have hts : (deliver s tx).2.txStatus txHash = s.txStatus txHash := by
      rw [deliver_snd_txStatus]
    have hpost : deliverTransfer s tx txHash =
        ((deliver s tx).1, (deliver s tx).2) := by
      simp only [deliverTransfer, GetStatus]
      simp only [hts]
      have hne2 : s.txStatus txHash ≠ TxStatus.NotSet := hne
      rw [if_neg hne2]
    rw [hpost]
    show (deliver s tx).2.txStatus txHash = GetStatus s txHash
    exact hts
  · intro sid accS hf hs haccS hsig hn hfit hstat hsucc
    have hnn : FetchNextNonce s sid = accS.nextNonce := by
      simp [FetchNextNonce, haccS]
    have hn2 : tx.nonce = FetchNextNonce s sid := by rw [hnn, hn]
    have hck : checkLoop s (FetchBalance s sid.ToIdentifier) tx.fee tx.toList =
        R.Success := by
      have h1 := deliver_fst_eq_checkTransfer s tx
      rw [hsucc] at h1
      rw [checkTransfer_eq_of_valid s tx sid hf hs hsig hn2] at h1
      exact h1.symm
    have hdel := deliver_success_of_valid s tx sid hf hs hsig hn2 hck
    have hpost1 : deliverTransfer s tx txHash =
        (R.Success, SetStatus (deliver s tx).2 txHash TxStatus.Success) := by
      simp only [deliverTransfer, GetStatus]
      have hts : (deliver s tx).2.txStatus txHash = s.txStatus txHash := by
        rw [deliver_snd_txStatus]
      have hstat2 : s.txStatus txHash = TxStatus.NotSet := hstat
      simp only [hsucc, hts, hstat2]
      simp [R.code]
    have hst2 : GetStatus (deliverTransfer s tx txHash).2 txHash =
        TxStatus.Success := by
      rw [hpost1]
      simp [GetStatus, SetStatus]
    have haddr2 : (deliverTransfer s tx txHash).2.addrToId = s.addrToId := by
      rw [hpost1]
      rw [show (SetStatus (deliver s tx).2 txHash TxStatus.Success).addrToId =
        (deliver s tx).2.addrToId from rfl, deliver_snd_addrToId]
    have hmod : (accS.nextNonce + 1) % 2 ^ 64 = accS.nextNonce + 1 :=
      Nat.mod_eq_of_lt hfit
    have hacc2 : ∃ b3, (deliverTransfer s tx txHash).2.accounts sid =
        some ⟨b3, accS.nextNonce + 1⟩ := by
      have hs1 : (IncrementNextNonce s sid).accounts sid =
          some ⟨accS.balance, accS.nextNonce + 1⟩ := by
        rw [IncrementNextNonce_accounts_self s sid accS haccS, hmod]
      obtain ⟨b2, hc⟩ := creditAll_accounts_nonce (resolvedPairs s tx.toList)
        (IncrementNextNonce s sid) sid ⟨accS.balance, accS.nextNonce + 1⟩ hs1
      refine ⟨b2 - (tx.fee + valuesTotal tx.toList), ?_⟩
      rw [hpost1]
      rw [show (SetStatus (deliver s tx).2 txHash TxStatus.Success).accounts =
        (deliver s tx).2.accounts from rfl, hdel]
      exact MinusBalance_accounts_self _ sid ⟨b2, accS.nextNonce + 1⟩ _ hc
    obtain ⟨b3, hacc3⟩ := hacc2
    have hres2 : IdentifierToLikeChainID (deliverTransfer s tx txHash).2
        tx.from_ = some sid := by
      cases hfrom : tx.from_ with
      | addr a =>
        rw [hfrom] at hs
        simp only [IdentifierToLikeChainID] at hs ⊢
        rw [haddr2]
        exact hs
      | id i =>
        rw [hfrom] at hs
        simp only [IdentifierToLikeChainID] at hs ⊢
        by_cases hi : (s.accounts i).isSome = true
        · rw [if_pos hi] at hs
          injection hs with he
          subst he
          rw [hacc3]
          simp
        · rw [if_neg hi] at hs
          exact absurd hs (by simp)
    have hsig2 : validateTransferSignature (deliverTransfer s tx txHash).2 tx =
        true := by
      rw [validateTransferSignature_congr s (deliverTransfer s tx txHash).2
        tx haddr2]
      exact hsig
    have hfn2 : FetchNextNonce (deliverTransfer s tx txHash).2 sid =
        accS.nextNonce + 1 := by
      simp [FetchNextNonce, hacc3]
    have hdel2 := deliver_duplicated (deliverTransfer s tx txHash).2 tx sid
      hf hres2 hsig2 (by rw [hfn2]; omega)
    have hpost2 : deliverTransfer (deliverTransfer s tx txHash).2 tx txHash =
        (R.TransferDuplicated, (deliverTransfer s tx txHash).2) := by
      have hst2b : (deliverTransfer s tx txHash).2.txStatus txHash =
          TxStatus.Success := hst2
      generalize hgen : (deliverTransfer s tx txHash).2 = s2 at hdel2 hst2b
      simp only [deliverTransfer, GetStatus]
      rw [hdel2]
      simp only [hst2b]
      simp [R.code]
    refine ⟨hst2, by rw [hpost2], ?_⟩
    rw [hpost2]
    exact hst2

/-- A plain transfer of value 1 from A to B at nonce 1. -/
def txAB : TransferTransaction :=
  { from_ := Identifier.id idA
    toList := [⟨Identifier.id idB, 1, []⟩]
    nonce := 1
    fee := 0
    sig := sigA }

/-- The test state with an already-recorded Success status under the
concrete hash. -/
def testStateS : State :=
  { testState with
    txStatus := fun h => if h = txHash1 then TxStatus.Success else TxStatus.NotSet }

theorem claim4_witness :
    GetStatus (deliverTransfer testStateS txAB txHash1).2 txHash1 =
      TxStatus.Success ∧
    GetStatus (deliverTransfer testState txAB txHash1).2 txHash1 =
      TxStatus.Success ∧
    (deliverTransfer (deliverTransfer testState txAB txHash1).2 txAB
      txHash1).1 = R.TransferDuplicated ∧
    GetStatus (deliverTransfer (deliverTransfer testState txAB txHash1).2 txAB
      txHash1).2 txHash1 = TxStatus.Success := by
  have ha := (claim4_status_write_once testStateS txAB txHash1).1 (by decide)
  have hb := (claim4_status_write_once testState txAB txHash1).2 idA ⟨100, 1⟩
    (by decide) (by decide) (by decide) (by decide) (by decide) (by decide)
    (by decide) (by decide)
  exact ⟨ha.trans (by decide), hb.1, hb.2.1, hb.2.2⟩

theorem gcCommitN_succ (k n : Nat) (g : GCState) :
    gcCommitN k (n + 1) g = gcCommit k (gcCommitN k n g) := by
  induction n generalizing g with
  | zero => rfl
  | succ n ih =>
    show gcCommitN k (n + 1) (gcCommit k g) = _
    rw [ih]
    rfl

theorem gcCommitN_character (k : Nat) (hk : 1 ≤ k) (n : Nat) :
    (gcCommitN k n gcGenesis).version = n ∧
    (∀ m, (gcCommitN k n gcGenesis).stateVersionExists m =
      decide (1 ≤ m ∧ m ≤ n ∧ n - k < m)) ∧
    (∀ m, (gcCommitN k n gcGenesis).withdrawVersionExists m =
      decide (1 ≤ m ∧ m ≤ n ∧ n - k < m)) := by
  induction n with
  | zero =>
    refine ⟨rfl, ?_, ?_⟩ <;> intro m <;>
      exact (decide_eq_false (by omega)).symm
  | succ n ih =>
    obtain ⟨hv, hst, hwd⟩ := ih
    rw [gcCommitN_succ]
    refine ⟨by simp [gcCommit, hv], ?_, ?_⟩
    · intro m
      simp only [gcCommit, hv]
      by_cases h1 : m = n + 1
      · simp only [h1, if_pos rfl]
        exact (decide_eq_true (by omega)).symm
      · by_cases h2 : k > 0 ∧ m = n + 1 - k
        · simp only [if_neg h1, if_pos h2]
          exact (decide_eq_false (by omega)).symm
        · simp only [if_neg h1, if_neg h2, hst m]
          rw [decide_eq_decide]
          omega
    · intro m
      simp only [gcCommit, hv]
      by_cases h1 : m = n + 1
      · simp only [h1, if_pos rfl]
        exact (decide_eq_true (by omega)).symm
      · by_cases h2 : k > 0 ∧ m = n + 1 - k
        · simp only [if_neg h1, if_pos h2]
          exact (decide_eq_false (by omega)).symm
        · simp only [if_neg h1, if_neg h2, hwd m]
          rw [decide_eq_decide]
          omega

/-- C8: with a configured `keepBlocks` window of at least 2, after the
`h`-th commit (counting from fresh trees) the version `h − keepBlocks`
no longer exists in either the state tree or the withdraw tree, while
versions `h` and `h − 1` both exist in both trees. -/
theorem claim8_gc_retention (k h : Nat) (hk : 2 ≤ k) (hh : 2 ≤ h) :
    (gcCommitN k h gcGenesis).version = h ∧
    (gcCommitN k h gcGenesis).stateVersionExists (h - k) = false ∧
    (gcCommitN k h gcGenesis).withdrawVersionExists (h - k) = false ∧
    (gcCommitN k h gcGenesis).stateVersionExists h = true ∧
    (gcCommitN k h gcGenesis).withdrawVersionExists h = true ∧
    (gcCommitN k h gcGenesis).stateVersionExists (h - 1) = true ∧
    (gcCommitN k h gcGenesis).withdrawVersionExists (h - 1) = true := by
  obtain ⟨hv, hst, hwd⟩ := gcCommitN_character k (by omega) h
  refine ⟨hv, ?_, ?_, ?_, ?_, ?_, ?_⟩
  · rw [hst (h - k)]
    exact decide_eq_false (by omega)
  · rw [hwd (h - k)]
    exact decide_eq_false (by omega)
  · rw [hst h]
    exact decide_eq_true (by omega)
  · rw [hwd h]
    exact decide_eq_true (by omega)
  · rw [hst (h - 1)]
    exact decide_eq_true (by omega)
  · rw [hwd (h - 1)]
    exact decide_eq_true (by omega)

theorem claim8_witness :
    2 ≤ 10 ∧ 2 ≤ 11 ∧
    (gcCommitN 10 11 gcGenesis).stateVersionExists 1 = false ∧
    (gcCommitN 10 11 gcGenesis).withdrawVersionExists 1 = false ∧
    (gcCommitN 10 11 gcGenesis).stateVersionExists 2 = true ∧
    (gcCommitN 10 11 gcGenesis).withdrawVersionExists 2 = true ∧
    (gcCommitN 10 11 gcGenesis).stateVersionExists 11 = true ∧
    (gcCommitN 10 11 gcGenesis).stateVersionExists 10 = true := by
  have h := claim8_gc_retention 10 11 (by decide) (by decide)
  exact ⟨by decide, by decide, h.2.1, h.2.2.1, by decide, by decide,
    h.2.2.2.1, h.2.2.2.2.2.1⟩

end LikeChain
